import Mathlib

/-!
# Document chat backend: ingestion, retrieval and chat ledger

A shallow embedding of the Express handlers in `backend/routes/upload.js` and
`backend/routes/chat.js` together with the Mongoose schemas in `backend/models/`.

JavaScript strings are modelled as lists of UTF-16 code units, so `length`,
`slice`, `includes` and `split` act on code units exactly as in the source.
-/

set_option autoImplicit false

namespace DocChat

/-! ## Strings -/

/-- A JavaScript string, as its sequence of UTF-16 code units. -/
abbrev JSString := List Nat

/-- Code units of a literal whose characters all lie in the Basic Multilingual Plane. -/
def js (s : String) : JSString := s.toList.map Char.toNat

/-- Embedding of `String.prototype.slice(a, b)` for non-negative integer arguments: both ends are
clamped to the length, and the result is empty when the clamped start is not below
the clamped end. -/
def slice (s : JSString) (a b : Nat) : JSString := (s.drop a).take (b - a)

/-! ## `chunkText` (upload.js, lines 48-56) -/

/-- The `while (start < text.length)` loop of `chunkText`. One unit of fuel is spent per
evaluation of the loop condition; `none` means the fuel ran out before the loop exited. -/
def chunkTextLoop : Nat → JSString → Nat → Nat → List JSString → Option (List JSString)
  | 0, _, _, _, _ => none
  | fuel + 1, text, maxChunkSize, start, chunks =>
    if start < text.length then
      chunkTextLoop fuel text maxChunkSize (start + maxChunkSize)
        (chunks ++ [slice text start (start + maxChunkSize)])
    else
      some chunks

/-- Function `chunkText(text, maxChunkSize)`: `chunks = []`, `start = 0`, then the loop. -/
def chunkText (fuel : Nat) (text : JSString) (maxChunkSize : Nat) : Option (List JSString) :=
  chunkTextLoop fuel text maxChunkSize 0 []

/-- The default value of the `maxChunkSize` parameter. -/
def defaultMaxChunkSize : Nat := 2000

/-- Concatenation of a list of strings in list order. -/
def concatStrings (parts : List JSString) : JSString :=
  parts.foldl (fun acc p => acc ++ p) []

/-- The `i`-th window of `text` for window length `L`: the slice from `i * L` up to
`min ((i + 1) * L) n`. Used to state what `chunkText` returns. -/
def window (text : JSString) (L i : Nat) : JSString :=
  slice text (i * L) (min ((i + 1) * L) text.length)

/-- The call `chunkText(text)` of the upload handler, with the default window. The fuel
`text.length + 1` always lets the loop exit (`chunkText_eq`), so the fallback is never used. -/
def chunkTextDefault (text : JSString) : List JSString :=
  (chunkText (text.length + 1) text defaultMaxChunkSize).getD []

/-- The white space and line terminator code units removed by `String.prototype.trim`. -/
def isWhiteSpace (c : Nat) : Bool :=
  c == 9 || c == 10 || c == 11 || c == 12 || c == 13 || c == 32 || c == 160 || c == 5760 ||
  (8192 ≤ c && c ≤ 8202) || c == 8232 || c == 8233 || c == 8239 || c == 8287 ||
  c == 12288 || c == 65279

/-- Embedding of `String.prototype.trim()`. -/
def trim (s : JSString) : JSString :=
  ((s.dropWhile isWhiteSpace).reverse.dropWhile isWhiteSpace).reverse

/-! ## Schemas (backend/models) -/

/-- Schema `DocumentSchema` of models/User.js: an entry of a user's catalog. -/
structure Document where
  _id : Nat
  originalName : JSString
  filename : JSString
  path : JSString
  size : Nat
  uploadedAt : Nat
  hash : JSString
  deriving DecidableEq, Repr

/-- Schema `UserSchema` of models/User.js, restricted to the fields the handlers read or write
(`email`, `username` and `passwordHash` are never touched by them). -/
structure User where
  _id : Nat
  documents : List Document
  deriving DecidableEq, Repr

/-- Schema `ChunkSchema` of models/Chunk.js. -/
structure Chunk where
  userId : Nat
  documentId : Nat
  chunkIndex : Nat
  text : JSString
  deriving DecidableEq, Repr

/-- Schema `ChatSessionSchema` of models/ChatSession.js. -/
structure ChatSession where
  _id : Nat
  userId : Nat
  documentIds : List Nat
  archived : Bool
  createdAt : Nat
  deriving DecidableEq, Repr

/-- Schema `ChatMessageSchema` of models/ChatHistory.js; `rating` is `'up'`, `'down'` or `null`. -/
structure ChatMessage where
  question : JSString
  answer : JSString
  rating : Option JSString
  createdAt : Nat
  deriving DecidableEq, Repr

/-- Schema `ChatHistorySchema` of models/ChatHistory.js. -/
structure ChatHistory where
  userId : Nat
  chatSessionId : Nat
  messages : List ChatMessage
  deriving DecidableEq, Repr

/-- The four collections of the database. -/
structure Db where
  users : List User
  chunks : List Chunk
  sessions : List ChatSession
  histories : List ChatHistory
  deriving DecidableEq, Repr

/-- Saving a loaded document back: it replaces the first stored document selected by `p`
(the one a `findOne`/`findById` with the same filter returned); a document that was
never stored is inserted at the end. -/
def replaceFirst {α : Type} (p : α → Bool) (x : α) : List α → List α
  | [] => [x]
  | y :: ys => if p y then x :: ys else y :: replaceFirst p x ys

/-- Embedding of `User.findById(id)`. -/
def User.findById (users : List User) (id : Nat) : Option User :=
  users.find? (fun u => u._id == id)

/-- Embedding of `user.save()`. -/
def User.save (users : List User) (user : User) : List User :=
  replaceFirst (fun u => u._id == user._id) user users

/-- Embedding of `ChatSession.findById(id)`. -/
def ChatSession.findById (sessions : List ChatSession) (id : Nat) : Option ChatSession :=
  sessions.find? (fun s => s._id == id)

/-- Embedding of `ChatHistory.findOne({ userId, chatSessionId })`. -/
def ChatHistory.findOne (histories : List ChatHistory) (userId chatSessionId : Nat) :
    Option ChatHistory :=
  histories.find? (fun h => h.userId == userId && h.chatSessionId == chatSessionId)

/-- Embedding of `chatHistory.save()`. -/
def ChatHistory.save (histories : List ChatHistory) (chatHistory : ChatHistory) :
    List ChatHistory :=
  replaceFirst
    (fun h => h.userId == chatHistory.userId && h.chatSessionId == chatHistory.chatSessionId)
    chatHistory histories

/-- Embedding of `Chunk.find({ userId, documentId: { $in: documentIds } }).sort('chunkIndex')`; the sort
is taken to be stable. -/
def Chunk.findSorted (chunks : List Chunk) (userId : Nat) (documentIds : List Nat) :
    List Chunk :=
  (chunks.filter (fun c => c.userId == userId && documentIds.contains c.documentId)).insertionSort
    (fun a b => a.chunkIndex ≤ b.chunkIndex)

/-- The text read back from the chunk store for one document: its chunk records in
`chunkIndex` order, concatenated. -/
def documentText (chunks : List Chunk) (userId documentId : Nat) : JSString :=
  concatStrings ((Chunk.findSorted chunks userId [documentId]).map (fun c => c.text))

/-! ## Upload handler (upload.js, lines 58-150) -/

/-- What the environment does with one uploaded file inside the `try` block. -/
inductive PdfOutcome where
  /-- The call `fs.promises.readFile(f.path)` rejects. -/
  | readFileRejects
  /-- The call `extractTextFromPdfBuffer(fileBuffer)` rejects. -/
  | pdfParseRejects
  /-- Extraction returns `text`; `insertManyRejects` tells whether `Chunk.insertMany`
  rejects should it be called. -/
  | extracted (text : JSString) (insertManyRejects : Bool)
  deriving DecidableEq, Repr

/-- One element `f` of `req.files`, with the values the environment supplies while it is
processed: the SHA-256 digest of its bytes, the `_id` Mongoose mints for its catalog
entry, the clock reading of `new Date()`, and the outcome of reading and parsing. -/
structure UploadedFile where
  originalname : JSString
  filename : JSString
  path : JSString
  size : Nat
  hash : JSString
  mintedId : Nat
  now : Nat
  outcome : PdfOutcome
  deriving DecidableEq, Repr

/-- The variables of the per-file loop: the loaded `user`, `newDocs`, the chunk
collection, and the paths passed to `fs.promises.unlink`. -/
structure UploadState where
  user : User
  newDocs : List Document
  chunks : List Chunk
  unlinked : List JSString
  deriving DecidableEq, Repr

/-- The path `/uploads/${req.user.id}/${f.filename}`; `userIdText` is the decimal text of
the id. -/
def webPath (userIdText : JSString) (f : UploadedFile) : JSString :=
  [47, 117, 112, 108, 111, 97, 100, 115, 47] ++ userIdText ++ [47] ++ f.filename

/-- The catalog entry pushed for `f` (lines 91-98). -/
def newDocument (userIdText : JSString) (f : UploadedFile) : Document :=
  { _id := f.mintedId, originalName := f.originalname, filename := f.filename,
    path := webPath userIdText f, size := f.size, uploadedAt := f.now, hash := f.hash }

/-- The duplicate check of lines 75-86: `find` returns the first entry with the same name,
and the file is skipped when that entry has the same size. -/
def isDuplicate (documents : List Document) (f : UploadedFile) : Bool :=
  match documents.find? (fun doc => doc.originalName == f.originalname) with
  | some existingDoc => existingDoc.size == f.size
  | none => false

/-- Embedding of `chunks.map((chunkText, idx) => ({ userId, documentId, chunkIndex: idx, text }))`. -/
def chunkDocs (userId documentId : Nat) (chunks : List JSString) : List Chunk :=
  chunks.enum.map (fun p =>
    { userId := userId, documentId := documentId, chunkIndex := p.1, text := p.2 })

/-- The records `chunkDocs` builds when the running index starts at `k`; used to reason
about `chunkDocs` by induction. -/
def recordsFrom (userId documentId : Nat) (k : Nat) (chunks : List JSString) : List Chunk :=
  (chunks.enumFrom k).map (fun p =>
    { userId := userId, documentId := documentId, chunkIndex := p.1, text := p.2 })

/-- The catch block of lines 122-127: the file's path is unlinked. -/
def catchFileErr (st : UploadState) (f : UploadedFile) : UploadState :=
  { st with unlinked := st.unlinked ++ [f.path] }

/-- The loop state right after lines 91-102: the entry for `f` is pushed onto the catalog
and onto `newDocs`. -/
def registered (userIdText : JSString) (st : UploadState) (f : UploadedFile) : UploadState :=
  { st with user := { st.user with documents := st.user.documents ++ [newDocument userIdText f] },
            newDocs := st.newDocs ++ [newDocument userIdText f] }

/-- One iteration of `for (const f of req.files)` (lines 69-128). -/
def processFile (userIdText : JSString) (st : UploadState) (f : UploadedFile) : UploadState :=
  match f.outcome with
  | .readFileRejects => catchFileErr st f
  | outcome =>
    if isDuplicate st.user.documents f then
      { st with unlinked := st.unlinked ++ [f.path] }
    else
      let documents := st.user.documents ++ [newDocument userIdText f]
      let last := documents.getLastD (newDocument userIdText f)
      let st1 : UploadState :=
        { st with user := { st.user with documents := documents },
                  newDocs := st.newDocs ++ [last] }
      match outcome with
      | .extracted text insertManyRejects =>
        if text.isEmpty || (trim text).length == 0 then
          st1
        else
          let chunks := chunkTextDefault text
          let docs := chunkDocs st1.user._id last._id chunks
          if insertManyRejects then catchFileErr st1 f
          else { st1 with chunks := st1.chunks ++ docs }
      | _ => catchFileErr st1 f

/-- A file of user 1 named `name`, with the given size, minted id and outcome. -/
def pdfFile (name : String) (size mintedId : Nat) (outcome : PdfOutcome) : UploadedFile :=
  { originalname := js name, filename := js name, path := js name, size := size,
    hash := [], mintedId := mintedId, now := 0, outcome := outcome }

/-- The loop state of user 1 with an empty catalog and an empty chunk store. -/
def emptyState : UploadState :=
  { user := { _id := 1, documents := [] }, newDocs := [], chunks := [], unlinked := [] }

/-- The loop state of user 1 whose catalog holds two versions of `a.pdf`, of sizes 10 and
20, as left by two earlier uploads. -/
def twoVersions : UploadState :=
  { user := { _id := 1,
              documents := [newDocument (js "1") (pdfFile "a.pdf" 10 5 (.extracted [] false)),
                            newDocument (js "1") (pdfFile "a.pdf" 20 6 (.extracted [] false))] },
    newDocs := [], chunks := [], unlinked := [] }

/-- Tells whether the processing of `f` fails once the file is past the duplicate check:
reading or text extraction rejects, or the chunk insert rejects for a text that is
chunked. -/
def processingFails (f : UploadedFile) : Bool :=
  match f.outcome with
  | .readFileRejects => true
  | .pdfParseRejects => true
  | .extracted text insertManyRejects =>
    insertManyRejects && !(text.isEmpty || (trim text).length == 0)

/-- A database holding user 1 with an empty catalog and nothing else. -/
def freshUserDb : Db :=
  { users := [{ _id := 1, documents := [] }], chunks := [], sessions := [], histories := [] }

/-- The session saved after the loop (lines 131-143), if any. `archived` takes its schema
default `false`, `createdAt` the clock reading. -/
def newSession (user : User) (newDocs : List Document) (sessionId now : Nat) :
    Option ChatSession :=
  if newDocs.length > 1 then
    some { _id := sessionId, userId := user._id, documentIds := newDocs.map (fun d => d._id),
           archived := false, createdAt := now }
  else if newDocs.length == 1 then
    some { _id := sessionId, userId := user._id,
           documentIds := (newDocs.take 1).map (fun d => d._id),
           archived := false, createdAt := now }
  else
    none

/-- Responses of `POST /upload`. -/
inductive UploadResponse where
  /-- Status 400, no files. -/
  | noFiles
  /-- Status 404, user not found. -/
  | userNotFound
  /-- Status 200 with the caller's catalog. -/
  | filesUploaded (documents : List Document)
  deriving DecidableEq, Repr

/-- Result of running the upload handler: the response, the database afterwards, and the
paths that were unlinked. -/
structure UploadResult where
  response : UploadResponse
  db : Db
  unlinked : List JSString
  deriving DecidableEq, Repr

/-- Handler `router.post('/')` of upload.js. `userIdText` is `req.user.id` as it appears in
paths, `sessionId` and `now` are the `_id` and `createdAt` a new session would get.
Writes to the `users` and `chatsessions` collections are taken to succeed. -/
def uploadHandler (db : Db) (reqUserId : Nat) (userIdText : JSString)
    (files : List UploadedFile) (sessionId now : Nat) : UploadResult :=
  if files.length == 0 then
    { response := .noFiles, db := db, unlinked := [] }
  else
    match User.findById db.users reqUserId with
    | none => { response := .userNotFound, db := db, unlinked := [] }
    | some user =>
      let st := files.foldl (processFile userIdText)
        { user := user, newDocs := [], chunks := db.chunks, unlinked := [] }
      let sessions :=
        match newSession st.user st.newDocs sessionId now with
        | some session => db.sessions ++ [session]
        | none => db.sessions
      { response := .filesUploaded st.user.documents,
        db := { db with users := User.save db.users st.user, chunks := st.chunks,
                        sessions := sessions },
        unlinked := st.unlinked }

/-- The caller's catalog as stored in the database (empty when the user is unknown). -/
def catalog (db : Db) (userId : Nat) : List Document :=
  match User.findById db.users userId with
  | some user => user.documents
  | none => []

/-! ## Retrieval (chat.js, lines 41-49) -/

/-- The class `\w` of a regular expression without flags: `[A-Za-z0-9_]`. -/
def isWordChar (c : Nat) : Bool :=
  (48 ≤ c && c ≤ 57) || (65 ≤ c && c ≤ 90) || c == 95 || (97 ≤ c && c ≤ 122)

/-- The sticky match of `/\W+/` at index `q` that `split` performs: the end index of the
longest run of non-word code units starting at `q`, or `none` when there is no such code
unit at `q`. -/
def matchNonWordAt (s : JSString) (q : Nat) : Option Nat :=
  let run := (s.drop q).takeWhile (fun c => !isWordChar c)
  if run.isEmpty then none else some (q + run.length)

/-- The loop of `RegExp.prototype[Symbol.split]` for the splitter `/\W+/` (no capture
groups, no limit): `p` is the start of the current piece, `q` the position tried next,
`A` the pieces found so far. A failed match, or a match ending at `p`, advances `q` by
one; any other match ending at `e` emits the piece from `p` to `q` and continues with
`p = q = e`. After the loop the piece from `p` to the end is emitted. One unit of fuel is
spent per evaluation of the loop condition. -/
def splitLoop : Nat → JSString → Nat → Nat → List JSString → Option (List JSString)
  | 0, _, _, _, _ => none
  | fuel + 1, s, p, q, A =>
    if q < s.length then
      match matchNonWordAt s q with
      | none => splitLoop fuel s p (q + 1) A
      | some e =>
        if e = p then splitLoop fuel s p (q + 1) A
        else splitLoop fuel s e e (A ++ [slice s p q])
    else
      some (A ++ [slice s p s.length])

/-- Embedding of `s.split(/\W+/)` with explicit fuel: for the empty string the result is
`[]` when the splitter matches it and `[s]` otherwise; any other string goes through the
loop. -/
def splitRegExp (fuel : Nat) (s : JSString) : Option (List JSString) :=
  if s.length == 0 then
    match matchNonWordAt s 0 with
    | some _ => some []
    | none => some [s]
  else
    splitLoop fuel s 0 0 []

/-- The call `s.split(/\W+/)`. The fuel `s.length + 1` always lets the loop exit
(`splitRegExp_eq`), so the fallback is never used. -/
def splitNonWordRegExp (s : JSString) : List JSString :=
  (splitRegExp (s.length + 1) s).getD []

/-- Splitting on runs of non-word characters, as a left-to-right scan: `cur` is the piece
being collected, `inRun` tells whether the previous code unit belonged to a run. The
first non-word code unit after a piece closes that piece (also when it is empty), the
rest of the run is skipped, and the piece after the last run is emitted at the end (also
when it is empty). -/
def splitNonWordAux : JSString → JSString → Bool → List JSString
  | [], cur, _ => [cur]
  | c :: rest, cur, inRun =>
    if isWordChar c then splitNonWordAux rest (cur ++ [c]) false
    else if inRun then splitNonWordAux rest cur true
    else cur :: splitNonWordAux rest [] true

/-- The pieces of `s` between its maximal runs of non-word characters. -/
def splitNonWord (s : JSString) : List JSString :=
  splitNonWordAux s [] false

/-- Embedding of `s.includes(w)`: some position `k` with `0 ≤ k ≤ s.length` at which `w` occurs in `s`. -/
def includes (s w : JSString) : Bool :=
  (List.range (s.length + 1)).any (fun k => (s.drop k).take w.length == w)

/-- Embedding of `parts.join(sep)`. -/
def join (sep : JSString) : List JSString → JSString
  | [] => []
  | [x] => x
  | x :: y :: rest => x ++ sep ++ join sep (y :: rest)

/-- Embedding of `question.toLowerCase().split(/\W+/)`; `toLowerCase` is the host's
`String.prototype.toLowerCase`. -/
def questionWords (toLowerCase : JSString → JSString) (question : JSString) : List JSString :=
  splitNonWordRegExp (toLowerCase question)

/-- The predicate of the `filter` of lines 43-45. -/
def isRelevant (toLowerCase : JSString → JSString) (words : List JSString) (chunk : Chunk) :
    Bool :=
  words.any (fun word => includes (toLowerCase chunk.text) word)

/-- The list `relevantChunks` of lines 43-45. -/
def relevantChunks (toLowerCase : JSString → JSString) (question : JSString)
    (chunks : List Chunk) : List Chunk :=
  chunks.filter (isRelevant toLowerCase (questionWords toLowerCase question))

/-- The string `textToSend` of lines 47-49; the separator is `'\n\n'`. -/
def textToSend (toLowerCase : JSString → JSString) (question : JSString)
    (chunks : List Chunk) : JSString :=
  let relevant := relevantChunks toLowerCase question chunks
  join [10, 10] ((if relevant.length != 0 then relevant else chunks).map (fun c => c.text))

/-- ASCII lower-casing, which is what `toLowerCase` does on strings of ASCII code units. -/
def asciiLower (s : JSString) : JSString :=
  s.map (fun c => if 65 ≤ c ∧ c ≤ 90 then c + 32 else c)

/-! ## Ask handler (chat.js, lines 17-92) -/

/-- A message of the completion request: role and content. -/
structure PromptMessage where
  role : JSString
  content : JSString
  deriving DecidableEq, Repr

/-- The `messages` array of lines 51-60. -/
def promptMessages (textToSend question : JSString) : List PromptMessage :=
  [ { role := js "system",
      content := js "You are a helpful assistant that answers questions based on the provided document text." },
    { role := js "user",
      content := js "Document text:\n" ++ textToSend ++ js "\n\nQuestion: " ++ question } ]

/-- What `await axios.post(...)` does. -/
inductive AxiosResult where
  /-- The promise rejects (network error or a status outside 2xx). -/
  | rejected
  /-- The promise resolves with `response.data` being `null` or `undefined`. -/
  | resolvedNoData
  /-- The promise resolves; `content` is `response.data.choices?.[0]?.message?.content`
  when that is a string, and `none` when the chain yields `undefined` or `null`. -/
  | resolved (content : Option JSString)
  deriving DecidableEq, Repr

/-- The sentinel `'No answer from AI'`. -/
def noAnswer : JSString := js "No answer from AI"

/-- Line 77: `content || 'No answer from AI'`; the empty string is falsy. -/
def answerOf (content : Option JSString) : JSString :=
  match content with
  | some c => if c.isEmpty then noAnswer else c
  | none => noAnswer

/-- Responses of `POST /chat`. -/
inductive AskResponse where
  /-- Status 400, `chatSessionId and question are required`. -/
  | missingFields
  /-- Status 404, `Chat session not found or empty`. -/
  | sessionNotFound
  /-- Status 404, `No chunks found for this chat session`. -/
  | noChunks
  /-- Status 200 with the answer. -/
  | answered (answer : JSString)
  /-- Status 500, `Server error during chat`. -/
  | serverError
  deriving DecidableEq, Repr

/-- Result of running the ask handler: the response, the database afterwards, and the
`messages` array posted to the completion service when the post was made. -/
structure AskResult where
  response : AskResponse
  db : Db
  posted : Option (List PromptMessage)
  deriving DecidableEq, Repr

/-- Handler `router.post('/')` of chat.js. `chatSessionId` is `none` when the body field is
missing; `axiosPost` is the completion service as seen through `axios.post`; `now` is the
clock reading used for the `createdAt` default. Database calls are taken to succeed. -/
def askHandler (toLowerCase : JSString → JSString) (axiosPost : List PromptMessage → AxiosResult)
    (db : Db) (userId : Nat) (chatSessionId : Option Nat) (question : JSString) (now : Nat) :
    AskResult :=
  match chatSessionId with
  | none => { response := .missingFields, db := db, posted := none }
  | some chatSessionId =>
    if question.isEmpty then { response := .missingFields, db := db, posted := none }
    else
      match ChatSession.findById db.sessions chatSessionId with
      | none => { response := .sessionNotFound, db := db, posted := none }
      | some session =>
        if session.documentIds.length == 0 then
          { response := .sessionNotFound, db := db, posted := none }
        else
          let chunks := Chunk.findSorted db.chunks userId session.documentIds
          if chunks.length == 0 then { response := .noChunks, db := db, posted := none }
          else
            let messages := promptMessages (textToSend toLowerCase question chunks) question
            match axiosPost messages with
            | .rejected => { response := .serverError, db := db, posted := some messages }
            | .resolvedNoData => { response := .serverError, db := db, posted := some messages }
            | .resolved content =>
              let answer := answerOf content
              let chatHistory : ChatHistory :=
                match ChatHistory.findOne db.histories userId chatSessionId with
                | some found => found
                | none => { userId := userId, chatSessionId := chatSessionId, messages := [] }
              let chatHistory := { chatHistory with
                messages := chatHistory.messages ++
                  [{ question := question, answer := answer, rating := none, createdAt := now }] }
              { response := .answered answer,
                db := { db with histories := ChatHistory.save db.histories chatHistory },
                posted := some messages }

/-- The ledger of a session as `GET /:chatSessionId/history` returns it: the stored message
list, or the empty list when no history document exists. -/
def ledger (db : Db) (userId chatSessionId : Nat) : List ChatMessage :=
  match ChatHistory.findOne db.histories userId chatSessionId with
  | some chatHistory => chatHistory.messages
  | none => []

/-! ## Rate handler (chat.js, lines 112-139) -/

/-- Responses of `POST /chat/:chatSessionId/rate`. -/
inductive RateResponse where
  /-- Status 400, `Invalid rating value`. -/
  | invalidRating
  /-- Status 404, `Chat history not found`. -/
  | historyNotFound
  /-- Status 400, `Invalid message index`. -/
  | invalidIndex
  /-- Status 200, `Rating updated`. -/
  | ratingUpdated
  /-- Status 500, `Server error`. -/
  | serverError
  deriving DecidableEq, Repr

/-- The HTTP status of a rate response. -/
def RateResponse.status : RateResponse → Nat
  | .invalidRating => 400
  | .historyNotFound => 404
  | .invalidIndex => 400
  | .ratingUpdated => 200
  | .serverError => 500

/-- Handler `router.post('/:chatSessionId/rate')`. `messageIndex` is an integer, `rating`
any string. Reading `messages[messageIndex]` past the array gives `undefined`, and
assigning to its property throws, which the catch block turns into status 500. -/
def rateHandler (db : Db) (userId chatSessionId : Nat) (messageIndex : Int) (rating : JSString) :
    RateResponse × Db :=
  if !([js "up", js "down"].contains rating) then (.invalidRating, db)
  else
    match ChatHistory.findOne db.histories userId chatSessionId with
    | none => (.historyNotFound, db)
    | some chatHistory =>
      if messageIndex < 0 || messageIndex ≥ (chatHistory.messages.length : Int) then
        (.invalidIndex, db)
      else
        match chatHistory.messages[messageIndex.toNat]? with
        | none => (.serverError, db)
        | some message =>
          let chatHistory := { chatHistory with
            messages := chatHistory.messages.set messageIndex.toNat
              { message with rating := some rating } }
          (.ratingUpdated, { db with histories := ChatHistory.save db.histories chatHistory })

/-- The HTTP status of an ask response. -/
def AskResponse.status : AskResponse → Nat
  | .missingFields => 400
  | .sessionNotFound => 404
  | .noChunks => 404
  | .answered _ => 200
  | .serverError => 500

/-- Lower-casing of one code unit on the part of `String.prototype.toLowerCase` used for
concrete inputs: an ASCII capital maps to its small letter, U+212A KELVIN SIGN maps to
`k` (its Unicode lower-case mapping), and every other ASCII code unit maps to itself. -/
def lowerUnit (c : Nat) : Nat :=
  if 65 ≤ c ∧ c ≤ 90 then c + 32 else if c = 8490 then 107 else c

/-- Lower-casing of a string whose code units are ASCII or U+212A, unit by unit. -/
def lowerAsciiKelvin (s : JSString) : JSString := s.map lowerUnit

/-! ## Session handlers (chatSession.js) -/

/-- Embedding of `ChatSession.findOne({ _id: sessionId, userId })`. -/
def ChatSession.findOne (sessions : List ChatSession) (sessionId userId : Nat) :
    Option ChatSession :=
  sessions.find? (fun s => s._id == sessionId && s.userId == userId)

/-- Embedding of `session.save()` for a session loaded by `ChatSession.findOne`. -/
def ChatSession.save (sessions : List ChatSession) (session : ChatSession) : List ChatSession :=
  replaceFirst (fun s => s._id == session._id && s.userId == session.userId) session sessions

/-- Responses of `POST /:sessionId/archive`. -/
inductive ArchiveResponse where
  /-- Status 404, `Chat session not found`. -/
  | sessionNotFound
  /-- Status 200 with the new value of the flag. -/
  | archived (archived : Bool)
  deriving DecidableEq, Repr

/-- Handler `router.post('/:sessionId/archive')` (lines 12-30). Database calls are taken
to succeed. -/
def archiveHandler (db : Db) (userId sessionId : Nat) : ArchiveResponse × Db :=
  match ChatSession.findOne db.sessions sessionId userId with
  | none => (.sessionNotFound, db)
  | some session =>
    let session := { session with archived := !session.archived }
    (.archived session.archived, { db with sessions := ChatSession.save db.sessions session })

/-- Responses of `DELETE /:sessionId`. -/
inductive DeleteResponse where
  /-- Status 404, `Chat session not found`. -/
  | sessionNotFound
  /-- Status 404, `User not found`. -/
  | userNotFound
  /-- Status 200, `Chat session and related data deleted`. -/
  | deleted
  deriving DecidableEq, Repr

/-- Handler `router.delete('/:sessionId')` (lines 33-66). `deleteOne` removes the first
document that matches its filter, `deleteMany` every document that matches. Database
calls are taken to succeed. -/
def deleteHandler (db : Db) (userId sessionId : Nat) : DeleteResponse × Db :=
  match ChatSession.findOne db.sessions sessionId userId with
  | none => (.sessionNotFound, db)
  | some session =>
    let histories :=
      db.histories.eraseP (fun h => h.userId == userId && h.chatSessionId == sessionId)
    let chunks :=
      db.chunks.filter
        (fun c => !(c.userId == userId && session.documentIds.contains c.documentId))
    match User.findById db.users userId with
    | none => (.userNotFound, { db with histories := histories, chunks := chunks })
    | some user =>
      let user := { user with
        documents := user.documents.filter
          (fun doc => !(session.documentIds.any (fun id => id == doc._id))) }
      (.deleted,
        { users := User.save db.users user, chunks := chunks,
          sessions := db.sessions.eraseP (fun s => s._id == sessionId),
          histories := histories })

/-- Every session has its own `_id` (the primary key of the collection). -/
def sessionIdsUnique (db : Db) : Prop :=
  (db.sessions.map (fun s => s._id)).Nodup

/-- There is one history document per owner and session, as the data model has it. -/
def historiesUnique (db : Db) : Prop :=
  (db.histories.map (fun h => (h.userId, h.chatSessionId))).Nodup

/-- Every chunk of a document bound to a session belongs to the owner of that session:
a session binds documents of its owner's catalog, and the chunks of a document carry the
id of the user who uploaded it. -/
def chunksFollowSessions (db : Db) : Prop :=
  ∀ c ∈ db.chunks, ∀ s ∈ db.sessions, c.documentId ∈ s.documentIds → c.userId = s.userId

/-- Every chunk carries the id of a user whose catalog holds the chunk's document. -/
def chunksInCatalog (db : Db) : Prop :=
  ∀ c ∈ db.chunks, ∃ u ∈ db.users, u._id = c.userId ∧ ∃ d ∈ u.documents, d._id = c.documentId

/-- Every document id bound to a session is in the catalog of the session's owner. -/
def sessionsInCatalog (db : Db) : Prop :=
  ∀ s ∈ db.sessions, ∀ id ∈ s.documentIds,
    ∃ u ∈ db.users, u._id = s.userId ∧ ∃ d ∈ u.documents, d._id = id

/-- A document id occurs in the catalog of one user only. -/
def documentIdsUnique (db : Db) : Prop :=
  ∀ u ∈ db.users, ∀ v ∈ db.users, ∀ d ∈ u.documents, ∀ e ∈ v.documents,
    d._id = e._id → u._id = v._id

/-- A database with two users: user 1 owns document 7 with one chunk, session 2 bound to
it, and a ledger with one exchange; user 3 owns document 8 with one chunk and session 4. -/
def sampleDb : Db :=
  { users := [{ _id := 1, documents := [newDocument (js "1")
                  (pdfFile "a.pdf" 10 7 (.extracted (js "hello") false))] },
              { _id := 3, documents := [newDocument (js "3")
                  (pdfFile "b.pdf" 20 8 (.extracted (js "world") false))] }],
    chunks := [Chunk.mk 1 7 0 (js "hello"), Chunk.mk 3 8 0 (js "world")],
    sessions := [ChatSession.mk 2 1 [7] false 0, ChatSession.mk 4 3 [8] false 0],
    histories := [ChatHistory.mk 1 2 [ChatMessage.mk (js "q") (js "a") none 0]] }

/-! ### Loop lemmas -/




theorem slice_clamp (s : JSString) (a b : Nat) :
    slice s a b = slice s a (min b s.length) := by
  unfold slice
  apply List.ext_getElem?
  intro i
  simp only [List.getElem?_take, List.getElem?_drop]
  by_cases h1 : i < b - a
  · by_cases h2 : i < min b s.length - a
    · simp [h1, h2]
    · have h3 : s.length ≤ a + i := by omega
      simp [h1, h2, List.getElem?_eq_none h3]
  · have h2 : ¬ i < min b s.length - a := by omega
    simp [h1, h2]

theorem length_slice (s : JSString) (a b : Nat) :
    (slice s a b).length = min b s.length - a := by
  unfold slice
  simp only [List.length_take, List.length_drop]
  omega

theorem lt_ceil_iff (n L k : Nat) (hL : 1 ≤ L) :
    k < (n + L - 1) / L ↔ k * L < n := by
  rw [Nat.lt_iff_add_one_le, Nat.le_div_iff_mul_le (by omega), Nat.add_mul]
  omega

theorem chunkTextLoop_spec (text : JSString) (L : Nat) (hL : 1 ≤ L) :
    ∀ (fuel k : Nat) (chunks : List JSString),
      k ≤ (text.length + L - 1) / L →
      (text.length + L - 1) / L + 1 ≤ fuel + k →
      chunkTextLoop fuel text L (k * L) chunks =
        some (chunks ++ (List.range' k ((text.length + L - 1) / L - k)).map (window text L)) := by
  intro fuel
  induction fuel with
  | zero => intro k chunks h1 h2; omega
  | succ fuel ih =>
    intro k chunks h1 h2
    unfold chunkTextLoop
    by_cases hlt : k * L < text.length
    · have hk : k < (text.length + L - 1) / L := (lt_ceil_iff _ _ _ hL).2 hlt
      have hstep : k * L + L = (k + 1) * L := by rw [Nat.add_mul, Nat.one_mul]
      rw [if_pos hlt, hstep, ih (k + 1) _ (by omega) (by omega)]
      have hN : (text.length + L - 1) / L - k = ((text.length + L - 1) / L - (k + 1)) + 1 := by
        omega
      rw [hN, List.range'_succ, List.map_cons, List.append_assoc]
      congr 2
      unfold window
      rw [← slice_clamp]
      rfl
    · have hk : ¬ k < (text.length + L - 1) / L := fun h => hlt ((lt_ceil_iff _ _ _ hL).1 h)
      have hN : (text.length + L - 1) / L - k = 0 := by omega
      rw [if_neg hlt, hN]
      simp

theorem ceil_le_length (n L : Nat) (hL : 1 ≤ L) : (n + L - 1) / L ≤ n := by
  rcases Nat.eq_zero_or_pos n with h | h
  · subst h
    rw [Nat.zero_add, Nat.div_eq_of_lt (by omega)]
  · apply Nat.div_le_of_le_mul
    calc n + L - 1 ≤ n + L - 1 + (n - 1) * (L - 1) := Nat.le_add_right _ _
      _ = L * n := by
        obtain ⟨m, rfl⟩ : ∃ m, n = m + 1 := ⟨n - 1, by omega⟩
        obtain ⟨l, rfl⟩ : ∃ l, L = l + 1 := ⟨L - 1, by omega⟩
        simp only [Nat.add_sub_cancel]
        ring_nf
        omega

theorem chunkText_eq (text : JSString) (L fuel : Nat) (hL : 1 ≤ L)
    (hfuel : text.length + 1 ≤ fuel) :
    chunkText fuel text L =
      some ((List.range ((text.length + L - 1) / L)).map (window text L)) := by
  have h := chunkTextLoop_spec text L hL fuel 0 [] (Nat.zero_le _)
    (by have := ceil_le_length text.length L hL; omega)
  simp only [Nat.zero_mul, Nat.sub_zero, List.nil_append] at h
  unfold chunkText
  rw [h, List.range_eq_range']

theorem concatStrings_eq_foldl (acc : JSString) (parts : List JSString) :
    parts.foldl (fun a p => a ++ p) acc = acc ++ concatStrings parts := by
  unfold concatStrings
  induction parts generalizing acc with
  | nil => simp
  | cons p ps ih => rw [List.foldl_cons, List.foldl_cons, ih, ih ([] ++ p)]; simp

theorem concatStrings_append (xs ys : List JSString) :
    concatStrings (xs ++ ys) = concatStrings xs ++ concatStrings ys := by
  unfold concatStrings
  rw [List.foldl_append, concatStrings_eq_foldl]
  rfl

theorem concatStrings_singleton (x : JSString) : concatStrings [x] = x := by
  simp [concatStrings]

theorem take_append_window (T : JSString) (L k : Nat) :
    T.take (k * L) ++ window T L k = T.take ((k + 1) * L) := by
  unfold window slice
  have h : (k + 1) * L = k * L + L := by rw [Nat.add_mul, Nat.one_mul]
  rw [← List.take_add]
  by_cases h1 : (k + 1) * L ≤ T.length
  · congr 1
    omega
  · rw [List.take_of_length_le (l := T) (i := (k + 1) * L) (by omega)]
    by_cases h2 : k * L ≤ T.length
    · apply List.take_of_length_le
      omega
    · apply List.take_of_length_le
      omega

theorem concatStrings_windows (T : JSString) (L k : Nat) :
    concatStrings ((List.range k).map (window T L)) = T.take (k * L) := by
  induction k with
  | zero => simp [concatStrings]
  | succ k ih =>
    rw [List.range_succ, List.map_append, concatStrings_append, ih, List.map_singleton,
      concatStrings_singleton, take_append_window]

theorem concatStrings_all_windows (T : JSString) (L : Nat) (hL : 1 ≤ L) :
    concatStrings ((List.range ((T.length + L - 1) / L)).map (window T L)) = T := by
  rw [concatStrings_windows]
  apply List.take_of_length_le
  have h : ¬ (T.length + L - 1) / L * L < T.length := fun h =>
    Nat.lt_irrefl _ ((lt_ceil_iff T.length L _ hL).2 h)
  omega

theorem length_window (T : JSString) (L i : Nat) :
    (window T L i).length = min ((i + 1) * L) T.length - i * L := by
  unfold window
  rw [length_slice]
  congr 1
  omega

/-! ## Claims about `chunkText` -/

/-- C1: for every text `T` of length `n` and every window `L ≥ 1`, `chunkText(T, L)`
terminates (any fuel above `n` lets the loop exit) and returns exactly `ceil(n / L)`
chunks; chunk `i` is the slice of `T` from `i * L` up to `min ((i + 1) * L) n`, it is
non-empty, it has length at most `L`, and it has length exactly `L` unless it is the
last chunk. -/
theorem chunkText_spec (T : JSString) (L fuel : Nat) (hL : 1 ≤ L) (hfuel : T.length < fuel) :
    ∃ chunks : List JSString,
      chunkText fuel T L = some chunks ∧
      chunks.length = (T.length + L - 1) / L ∧
      ∀ (i : Nat) (c : JSString), chunks[i]? = some c →
        c = slice T (i * L) (min ((i + 1) * L) T.length) ∧
        c ≠ [] ∧
        c.length ≤ L ∧
        (i + 1 < chunks.length → c.length = L) := by
  refine ⟨_, chunkText_eq T L fuel hL hfuel, by simp, ?_⟩
  intro i c hc
  rw [List.getElem?_map] at hc
  have hi : i < (T.length + L - 1) / L := by
    by_contra hge
    rw [List.getElem?_eq_none (by simpa using Nat.le_of_not_lt hge)] at hc
    simp at hc
  rw [List.getElem?_range hi] at hc
  simp only [Option.map_some', Option.some.injEq] at hc
  subst hc
  have hlt : i * L < T.length := (lt_ceil_iff _ _ _ hL).1 hi
  have hmul : (i + 1) * L = i * L + L := by rw [Nat.add_mul, Nat.one_mul]
  refine ⟨rfl, ?_, ?_, ?_⟩
  · intro h0
    have := length_window T L i
    rw [h0] at this
    simp only [List.length_nil] at this
    omega
  · rw [length_window]; omega
  · intro hnext
    simp only [List.length_map, List.length_range] at hnext
    have hlt2 : (i + 1) * L < T.length := (lt_ceil_iff _ _ _ hL).1 hnext
    rw [length_window]; omega

/-- Witness for C1: the text `abcde` with window 2 and fuel 6. -/
theorem chunkText_spec_witness :
    ∃ chunks : List JSString,
      chunkText 6 (js "abcde") 2 = some chunks ∧
      chunks.length = ((js "abcde").length + 2 - 1) / 2 ∧
      ∀ (i : Nat) (c : JSString), chunks[i]? = some c →
        c = slice (js "abcde") (i * 2) (min ((i + 1) * 2) (js "abcde").length) ∧
        c ≠ [] ∧
        c.length ≤ 2 ∧
        (i + 1 < chunks.length → c.length = 2) :=
  chunkText_spec (js "abcde") 2 6 (by decide) (by decide)

/-! ## Chunk records of a document -/

theorem chunkTextDefault_eq (T : JSString) :
    chunkTextDefault T =
      (List.range ((T.length + defaultMaxChunkSize - 1) / defaultMaxChunkSize)).map
        (window T defaultMaxChunkSize) := by
  unfold chunkTextDefault
  rw [chunkText_eq T defaultMaxChunkSize _ (by decide) (Nat.le_refl _)]
  rfl

theorem concatStrings_chunkTextDefault (T : JSString) :
    concatStrings (chunkTextDefault T) = T := by
  rw [chunkTextDefault_eq]
  exact concatStrings_all_windows T defaultMaxChunkSize (by decide)

theorem recordsFrom_nil (u d k : Nat) : recordsFrom u d k [] = [] := rfl

theorem recordsFrom_cons (u d k : Nat) (x : JSString) (xs : List JSString) :
    recordsFrom u d k (x :: xs) =
      { userId := u, documentId := d, chunkIndex := k, text := x } :: recordsFrom u d (k + 1) xs :=
  rfl

theorem chunkDocs_eq_recordsFrom (u d : Nat) (chunks : List JSString) :
    chunkDocs u d chunks = recordsFrom u d 0 chunks := rfl

theorem recordsFrom_text (u d : Nat) (chunks : List JSString) (k : Nat) :
    (recordsFrom u d k chunks).map (fun c => c.text) = chunks := by
  induction chunks generalizing k with
  | nil => rfl
  | cons x xs ih => rw [recordsFrom_cons, List.map_cons, ih]

theorem recordsFrom_index (u d : Nat) (chunks : List JSString) (k : Nat) :
    (recordsFrom u d k chunks).map (fun c => c.chunkIndex) = List.range' k chunks.length := by
  induction chunks generalizing k with
  | nil => rfl
  | cons x xs ih => rw [recordsFrom_cons, List.map_cons, ih, List.length_cons, List.range'_succ]

theorem recordsFrom_length (u d : Nat) (chunks : List JSString) (k : Nat) :
    (recordsFrom u d k chunks).length = chunks.length := by
  simp [recordsFrom]

theorem recordsFrom_mem (u d : Nat) (chunks : List JSString) (k : Nat) (c : Chunk)
    (hc : c ∈ recordsFrom u d k chunks) :
    c.userId = u ∧ c.documentId = d ∧ k ≤ c.chunkIndex := by
  induction chunks generalizing k with
  | nil => simp [recordsFrom_nil] at hc
  | cons x xs ih =>
    rw [recordsFrom_cons, List.mem_cons] at hc
    rcases hc with rfl | hc
    · exact ⟨rfl, rfl, Nat.le_refl _⟩
    · have := ih (k + 1) hc
      exact ⟨this.1, this.2.1, by omega⟩

theorem recordsFrom_sorted (u d : Nat) (chunks : List JSString) (k : Nat) :
    List.Sorted (fun a b : Chunk => a.chunkIndex ≤ b.chunkIndex) (recordsFrom u d k chunks) := by
  induction chunks generalizing k with
  | nil => exact List.sorted_nil
  | cons x xs ih =>
    rw [recordsFrom_cons]
    refine List.sorted_cons.2 ⟨?_, ih (k + 1)⟩
    intro b hb
    have := (recordsFrom_mem u d xs (k + 1) b hb).2.2
    show k ≤ b.chunkIndex
    omega

theorem findSorted_append_records (chunks : List Chunk) (u d : Nat) (parts : List JSString)
    (hfresh : ∀ c ∈ chunks, ¬ (c.userId = u ∧ c.documentId = d)) :
    Chunk.findSorted (chunks ++ chunkDocs u d parts) u [d] = chunkDocs u d parts := by
  unfold Chunk.findSorted
  rw [List.filter_append]
  have h1 : chunks.filter (fun c => c.userId == u && [d].contains c.documentId) = [] := by
    rw [List.filter_eq_nil_iff]
    intro c hc hp
    apply hfresh c hc
    simpa using hp
  have h2 : (chunkDocs u d parts).filter (fun c => c.userId == u && [d].contains c.documentId)
      = chunkDocs u d parts := by
    rw [List.filter_eq_self]
    intro c hc
    have := recordsFrom_mem u d parts 0 c hc
    simp [this.1, this.2.1]
  rw [h1, h2, List.nil_append]
  exact List.Sorted.insertionSort_eq (recordsFrom_sorted u d parts 0)

theorem findSorted_fresh (chunks : List Chunk) (u d : Nat)
    (hfresh : ∀ c ∈ chunks, ¬ (c.userId = u ∧ c.documentId = d)) :
    Chunk.findSorted chunks u [d] = [] := by
  unfold Chunk.findSorted
  have h1 : chunks.filter (fun c => c.userId == u && [d].contains c.documentId) = [] := by
    rw [List.filter_eq_nil_iff]
    intro c hc hp
    apply hfresh c hc
    simpa using hp
  rw [h1]
  rfl

/-! ## The per-file step -/

theorem processFile_readFileRejects (uid : JSString) (st : UploadState) (f : UploadedFile)
    (h : f.outcome = .readFileRejects) : processFile uid st f = catchFileErr st f := by
  unfold processFile
  rw [h]

theorem processFile_duplicate (uid : JSString) (st : UploadState) (f : UploadedFile)
    (h : f.outcome ≠ .readFileRejects) (hd : isDuplicate st.user.documents f = true) :
    processFile uid st f = { st with unlinked := st.unlinked ++ [f.path] } := by
  unfold processFile
  cases hf : f.outcome with
  | readFileRejects => exact absurd hf h
  | pdfParseRejects => simp [hd]
  | extracted t b => simp [hd]

theorem processFile_pdfParseRejects (uid : JSString) (st : UploadState) (f : UploadedFile)
    (h : f.outcome = .pdfParseRejects) (hd : isDuplicate st.user.documents f = false) :
    processFile uid st f = catchFileErr (registered uid st f) f := by
  unfold processFile
  rw [h]
  simp [hd, registered]

theorem processFile_extracted (uid : JSString) (st : UploadState) (f : UploadedFile)
    (t : JSString) (b : Bool)
    (h : f.outcome = .extracted t b) (hd : isDuplicate st.user.documents f = false) :
    processFile uid st f =
      if t.isEmpty || (trim t).length == 0 then registered uid st f
      else if b then catchFileErr (registered uid st f) f
      else { registered uid st f with
             chunks := st.chunks ++ chunkDocs st.user._id f.mintedId (chunkTextDefault t) } := by
  unfold processFile
  rw [h]
  simp [hd, registered, newDocument]

theorem isDuplicate_exists (documents : List Document) (f : UploadedFile)
    (h : isDuplicate documents f = true) :
    ∃ d ∈ documents, d.originalName = f.originalname ∧ d.size = f.size := by
  unfold isDuplicate at h
  cases hfind : documents.find? (fun doc => doc.originalName == f.originalname) with
  | none => rw [hfind] at h; simp at h
  | some d =>
    rw [hfind] at h
    refine ⟨d, List.mem_of_find?_eq_some hfind, ?_, by simpa using h⟩
    simpa using List.find?_some hfind

theorem processFile_grows (uid : JSString) (st : UploadState) (f : UploadedFile) :
    ∃ added : List Document,
      (processFile uid st f).user.documents = st.user.documents ++ added ∧
      (processFile uid st f).newDocs = st.newDocs ++ added ∧
      (processFile uid st f).user._id = st.user._id := by
  cases hf : f.outcome with
  | readFileRejects =>
    rw [processFile_readFileRejects uid st f hf]
    exact ⟨[], by simp [catchFileErr], by simp [catchFileErr], rfl⟩
  | pdfParseRejects =>
    cases hd : isDuplicate st.user.documents f with
    | true =>
      rw [processFile_duplicate uid st f (by rw [hf]; simp) hd]
      exact ⟨[], by simp, by simp, rfl⟩
    | false =>
      rw [processFile_pdfParseRejects uid st f hf hd]
      exact ⟨[newDocument uid f], rfl, rfl, rfl⟩
  | extracted t b =>
    cases hd : isDuplicate st.user.documents f with
    | true =>
      rw [processFile_duplicate uid st f (by rw [hf]; simp) hd]
      exact ⟨[], by simp, by simp, rfl⟩
    | false =>
      rw [processFile_extracted uid st f t b hf hd]
      refine ⟨[newDocument uid f], ?_, ?_, ?_⟩ <;>
        (split_ifs <;> rfl)

theorem foldl_processFile_grows (uid : JSString) (files : List UploadedFile) (st : UploadState) :
    ∃ added : List Document,
      (files.foldl (processFile uid) st).user.documents = st.user.documents ++ added ∧
      (files.foldl (processFile uid) st).newDocs = st.newDocs ++ added ∧
      (files.foldl (processFile uid) st).user._id = st.user._id := by
  induction files generalizing st with
  | nil => exact ⟨[], by simp, by simp, rfl⟩
  | cons f fs ih =>
    obtain ⟨a1, h1, h2, h3⟩ := processFile_grows uid st f
    obtain ⟨a2, k1, k2, k3⟩ := ih (processFile uid st f)
    refine ⟨a1 ++ a2, ?_, ?_, ?_⟩
    · rw [List.foldl_cons, k1, h1, List.append_assoc]
    · rw [List.foldl_cons, k2, h2, List.append_assoc]
    · rw [List.foldl_cons, k3, h3]

theorem find?_replaceFirst {α : Type} (p : α → Bool) (x : α) (l : List α) (hx : p x = true) :
    (replaceFirst p x l).find? p = some x := by
  induction l with
  | nil => simp [replaceFirst, hx]
  | cons y ys ih =>
    unfold replaceFirst
    by_cases hy : p y = true
    · simp [hy, hx]
    · simp [hy, ih]

theorem newSession_eq (user : User) (newDocs : List Document) (sid now : Nat) :
    newSession user newDocs sid now =
      if newDocs = [] then none
      else some { _id := sid, userId := user._id, documentIds := newDocs.map (fun d => d._id),
                  archived := false, createdAt := now } := by
  unfold newSession
  match newDocs with
  | [] => simp
  | [d] => simp
  | d :: e :: rest => simp

theorem trim_blank (t : JSString) (hblank : ∀ c ∈ t, isWhiteSpace c = true) : trim t = [] := by
  unfold trim
  rw [List.dropWhile_eq_nil_iff.2 hblank]
  rfl

/-! ## Claims about the upload handler -/

/-- C2, as the code has it: for every text `T` and window `L ≥ 1` the chunks returned by
`chunkText(T, L)`, concatenated in index order, give back `T`; and for a non-duplicate
file whose extracted text `T` is empty or is not whitespace-only, and whose chunk insert
succeeds, the chunk records stored for its document carry the indices `0..N-1` and
give back `T` when concatenated in `chunkIndex` order. -/
theorem chunks_reconstruct_text (T : JSString) (L fuel : Nat) (hL : 1 ≤ L)
    (hfuel : T.length < fuel) :
    (∃ chunks : List JSString, chunkText fuel T L = some chunks ∧ concatStrings chunks = T) ∧
    ∀ (uid : JSString) (st : UploadState) (f : UploadedFile),
      isDuplicate st.user.documents f = false →
      f.outcome = .extracted T false →
      (T = [] ∨ trim T ≠ []) →
      (∀ c ∈ st.chunks, ¬ (c.userId = st.user._id ∧ c.documentId = f.mintedId)) →
      (Chunk.findSorted (processFile uid st f).chunks st.user._id [f.mintedId]).map
          (fun c => c.chunkIndex) =
        List.range
          (Chunk.findSorted (processFile uid st f).chunks st.user._id [f.mintedId]).length ∧
      documentText (processFile uid st f).chunks st.user._id f.mintedId = T := by
  refine ⟨⟨_, chunkText_eq T L fuel hL hfuel, concatStrings_all_windows T L hL⟩, ?_⟩
  intro uid st f hd hout hT hfresh
  rw [processFile_extracted uid st f T false hout hd]
  unfold documentText
  by_cases hblank : (T.isEmpty || (trim T).length == 0) = true
  · have hnil : T = [] := by
      rcases hT with h | h
      · exact h
      · simp only [Bool.or_eq_true, List.isEmpty_iff, beq_iff_eq, List.length_eq_zero] at hblank
        rcases hblank with h' | h'
        · exact h'
        · exact absurd h' h
    have key : Chunk.findSorted (registered uid st f).chunks st.user._id [f.mintedId] = [] :=
      findSorted_fresh st.chunks _ _ hfresh
    rw [if_pos hblank, key, hnil]
    exact ⟨rfl, rfl⟩
  · rw [if_neg hblank]
    simp only [Bool.false_eq_true, if_false]
    show (Chunk.findSorted (st.chunks ++ _) _ _).map _ = _ ∧ _
    rw [findSorted_append_records st.chunks _ _ _ hfresh, chunkDocs_eq_recordsFrom,
      recordsFrom_index, recordsFrom_text, recordsFrom_length, List.range_eq_range']
    exact ⟨rfl, concatStrings_chunkTextDefault T⟩

/-- Witness for C2: the text `ab` with window 1, uploaded into an empty catalog. -/
theorem chunks_reconstruct_text_witness :
    (∃ chunks : List JSString, chunkText 3 (js "ab") 1 = some chunks ∧
      concatStrings chunks = js "ab") ∧
    documentText
      (processFile (js "1") emptyState
        (pdfFile "a.pdf" 10 7 (.extracted (js "ab") false))).chunks 1 7 = js "ab" :=
  ⟨(chunks_reconstruct_text (js "ab") 1 3 (by decide) (by decide)).1,
   ((chunks_reconstruct_text (js "ab") 1 3 (by decide) (by decide)).2 (js "1") emptyState
      (pdfFile "a.pdf" 10 7 (.extracted (js "ab") false))
      (by decide) rfl (by decide) (by simp [emptyState])).2⟩

/-- Counterexample to C2 as stated: a non-duplicate file whose extracted text is a single
space is registered, no chunk record is stored for it, and the stored records give back
the empty string, not the extracted text. -/
theorem whitespace_text_not_reconstructed :
    isDuplicate emptyState.user.documents (pdfFile "a.pdf" 10 7 (.extracted [32] false)) = false ∧
    (processFile (js "1") emptyState (pdfFile "a.pdf" 10 7 (.extracted [32] false))).newDocs.map
        (fun d => d._id) = [7] ∧
    documentText
        (processFile (js "1") emptyState (pdfFile "a.pdf" 10 7 (.extracted [32] false))).chunks
        1 7 = [] ∧
    documentText
        (processFile (js "1") emptyState (pdfFile "a.pdf" 10 7 (.extracted [32] false))).chunks
        1 7 ≠ [32] := by
  decide

/-- C3, evaluated where the code departs from it: the catalog holds `a.pdf` with size 10
and `a.pdf` with size 20, and `a.pdf` with size 20 is uploaded again. An entry with the
same name and the same size exists, yet the duplicate check compares the size of the
first entry of that name only, so the file is registered once more, enters `newDocs`,
and is not unlinked. -/
theorem later_version_not_deduplicated :
    (∃ d ∈ twoVersions.user.documents,
      d.originalName = (pdfFile "a.pdf" 20 7 (.extracted [] false)).originalname ∧
      d.size = (pdfFile "a.pdf" 20 7 (.extracted [] false)).size) ∧
    isDuplicate twoVersions.user.documents (pdfFile "a.pdf" 20 7 (.extracted [] false)) = false ∧
    (processFile (js "1") twoVersions (pdfFile "a.pdf" 20 7 (.extracted [] false))).user.documents =
      twoVersions.user.documents ++
        [newDocument (js "1") (pdfFile "a.pdf" 20 7 (.extracted [] false))] ∧
    (processFile (js "1") twoVersions (pdfFile "a.pdf" 20 7 (.extracted [] false))).newDocs.map
        (fun d => d._id) = [7] ∧
    (processFile (js "1") twoVersions (pdfFile "a.pdf" 20 7 (.extracted [] false))).unlinked = [] := by
  decide

/-- C4, evaluated where the code departs from it: a batch of two new files, `good.pdf`
whose text is extracted and chunked, and `bad.pdf` whose text extraction rejects. The
new-document set of the batch is the document of `good.pdf` alone, yet the one session
that is created is bound to the ids of both files, the second of which has no chunks and
whose bytes were unlinked. -/
theorem session_bound_to_failed_document :
    processingFails (pdfFile "good.pdf" 10 7 (.extracted (js "hello") false)) = false ∧
    processingFails (pdfFile "bad.pdf" 20 8 .pdfParseRejects) = true ∧
    (uploadHandler freshUserDb 1 (js "1")
        [pdfFile "good.pdf" 10 7 (.extracted (js "hello") false),
         pdfFile "bad.pdf" 20 8 .pdfParseRejects] 100 0).db.sessions =
      [ChatSession.mk 100 1 [7, 8] false 0] ∧
    (uploadHandler freshUserDb 1 (js "1")
        [pdfFile "good.pdf" 10 7 (.extracted (js "hello") false),
         pdfFile "bad.pdf" 20 8 .pdfParseRejects] 100 0).db.chunks =
      [Chunk.mk 1 7 0 (js "hello")] ∧
    (uploadHandler freshUserDb 1 (js "1")
        [pdfFile "good.pdf" 10 7 (.extracted (js "hello") false),
         pdfFile "bad.pdf" 20 8 .pdfParseRejects] 100 0).unlinked = [js "bad.pdf"] := by
  decide

/-- The session step of the handler in terms of the catalog: with `D` the entries the
batch appended to the caller's catalog, the session collection is unchanged when `D` is
empty, and otherwise exactly one session is appended, whose `documentIds` are the ids of
`D` in registration order, whose owner is the uploading user and whose `archived` flag is
`false`. -/
theorem upload_session_binding (db : Db) (uid : Nat) (uidText : JSString)
    (files : List UploadedFile) (sid now : Nat) :
    ∃ D : List Document,
      catalog (uploadHandler db uid uidText files sid now).db uid = catalog db uid ++ D ∧
      (D = [] → (uploadHandler db uid uidText files sid now).db.sessions = db.sessions) ∧
      (D ≠ [] → (uploadHandler db uid uidText files sid now).db.sessions =
        db.sessions ++ [{ _id := sid, userId := uid, documentIds := D.map (fun d => d._id),
                          archived := false, createdAt := now }]) := by
  unfold uploadHandler
  by_cases hfiles : (files.length == 0) = true
  · rw [if_pos hfiles]
    exact ⟨[], by simp, fun _ => rfl, fun h => absurd rfl h⟩
  · rw [if_neg hfiles]
    cases hu : User.findById db.users uid with
    | none => exact ⟨[], by simp, fun _ => rfl, fun h => absurd rfl h⟩
    | some user =>
      obtain ⟨added, h1, h2, h3⟩ := foldl_processFile_grows uidText files
        { user := user, newDocs := [], chunks := db.chunks, unlinked := [] }
      have huid : user._id = uid := by
        have := List.find?_some hu
        simpa using this
      simp only [List.nil_append] at h1 h2 h3
      refine ⟨added, ?_, ?_, ?_⟩
      · have hcat : catalog db uid = user.documents := by
          unfold catalog
          rw [hu]
        rw [hcat]
        unfold catalog User.findById User.save
        simp only []
        rw [h3, huid, find?_replaceFirst _ _ _ (by simp [h3, huid])]
        exact h1
      · intro hD
        simp only []
        rw [h2, newSession_eq, if_pos hD]
      · intro hD
        simp only []
        rw [h2, newSession_eq, if_neg hD, h3, huid]

/-- C5, evaluated where the code departs from it: a batch of one file whose text extraction
rejects. The catch block unlinks the file, yet its entry is already in the catalog and in
`newDocs`, so a session bound to its id is created although no chunk exists for it. -/
theorem failed_extraction_still_bound :
    (uploadHandler { users := [{ _id := 1, documents := [] }], chunks := [], sessions := [],
                     histories := [] }
        1 (js "1") [pdfFile "a.pdf" 10 7 .pdfParseRejects] 100 0).db.sessions =
      [{ _id := 100, userId := 1, documentIds := [7], archived := false, createdAt := 0 }] ∧
    (catalog (uploadHandler { users := [{ _id := 1, documents := [] }], chunks := [],
                              sessions := [], histories := [] }
        1 (js "1") [pdfFile "a.pdf" 10 7 .pdfParseRejects] 100 0).db 1).map (fun d => d._id) = [7] ∧
    (uploadHandler { users := [{ _id := 1, documents := [] }], chunks := [], sessions := [],
                     histories := [] }
        1 (js "1") [pdfFile "a.pdf" 10 7 .pdfParseRejects] 100 0).db.chunks = [] ∧
    (uploadHandler { users := [{ _id := 1, documents := [] }], chunks := [], sessions := [],
                     histories := [] }
        1 (js "1") [pdfFile "a.pdf" 10 7 .pdfParseRejects] 100 0).unlinked = [js "a.pdf"] := by
  decide

/-- C6: for every uploaded file that is read, has no catalog entry of the same name and
size, and whose extracted text is empty or consists of white space only, the step
creates no chunk record, appends the file's entry to the catalog and to `newDocs`, and
the entry stays in both for the rest of the batch. -/
theorem blank_text_still_registers (uid : JSString) (st : UploadState) (f : UploadedFile)
    (t : JSString) (b : Bool)
    (hnodup : ¬ ∃ d ∈ st.user.documents, d.originalName = f.originalname ∧ d.size = f.size)
    (hout : f.outcome = .extracted t b)
    (hblank : ∀ c ∈ t, isWhiteSpace c = true) :
    (processFile uid st f).chunks = st.chunks ∧
    (processFile uid st f).user.documents = st.user.documents ++ [newDocument uid f] ∧
    (processFile uid st f).newDocs = st.newDocs ++ [newDocument uid f] ∧
    (newDocument uid f)._id = f.mintedId ∧
    ∀ rest : List UploadedFile,
      newDocument uid f ∈ (rest.foldl (processFile uid) (processFile uid st f)).newDocs ∧
      newDocument uid f ∈ (rest.foldl (processFile uid) (processFile uid st f)).user.documents ∧
      f.mintedId ∈ ((rest.foldl (processFile uid) (processFile uid st f)).newDocs.map
        (fun d => d._id)) := by
  have hd : isDuplicate st.user.documents f = false := by
    cases h : isDuplicate st.user.documents f with
    | false => rfl
    | true => exact absurd (isDuplicate_exists _ _ h) hnodup
  have hstep : processFile uid st f = registered uid st f := by
    rw [processFile_extracted uid st f t b hout hd, trim_blank t hblank]
    simp
  rw [hstep]
  refine ⟨rfl, rfl, rfl, rfl, ?_⟩
  intro rest
  obtain ⟨added, h1, h2, _⟩ := foldl_processFile_grows uid rest (registered uid st f)
  have hmem : newDocument uid f ∈ (rest.foldl (processFile uid) (registered uid st f)).newDocs := by
    rw [h2]
    simp [registered]
  refine ⟨hmem, ?_, ?_⟩
  · rw [h1]
    simp [registered]
  · exact List.mem_map.2 ⟨_, hmem, rfl⟩

/-- Witness for C6: a file whose extracted text is a space and a line feed, uploaded into
an empty catalog. -/
theorem blank_text_still_registers_witness :
    (processFile (js "1") emptyState (pdfFile "a.pdf" 10 7 (.extracted [32, 10] false))).chunks =
      emptyState.chunks ∧
    (processFile (js "1") emptyState
        (pdfFile "a.pdf" 10 7 (.extracted [32, 10] false))).user.documents =
      emptyState.user.documents ++
        [newDocument (js "1") (pdfFile "a.pdf" 10 7 (.extracted [32, 10] false))] :=
  have h := blank_text_still_registers (js "1") emptyState
    (pdfFile "a.pdf" 10 7 (.extracted [32, 10] false)) [32, 10] false
    (by decide) rfl (by decide)
  ⟨h.1, h.2.1⟩

/-! ## Retrieval -/

theorem splitNonWordAux_skip (l : JSString) :
    splitNonWordAux l [] true =
      splitNonWordAux (l.dropWhile (fun c => !isWordChar c)) [] false := by
  induction l with
  | nil => rfl
  | cons c r ih =>
    by_cases hc : isWordChar c = true
    · have hd : (c :: r).dropWhile (fun c => !isWordChar c) = c :: r := by
        simp [List.dropWhile_cons, hc]
      rw [hd]
      simp [splitNonWordAux, hc]
    · have hd : (c :: r).dropWhile (fun c => !isWordChar c)
          = r.dropWhile (fun c => !isWordChar c) := by
        simp [List.dropWhile_cons, hc]
      rw [hd, ← ih]
      simp [splitNonWordAux, hc]

theorem drop_length_takeWhile (p : Nat → Bool) (l : JSString) :
    l.drop (l.takeWhile p).length = l.dropWhile p := by
  induction l with
  | nil => rfl
  | cons c r ih =>
    by_cases hc : p c = true
    · simp [List.takeWhile_cons, List.dropWhile_cons, hc, ih]
    · simp [List.takeWhile_cons, List.dropWhile_cons, hc]

theorem slice_succ (s : JSString) (p q : Nat) (c : Nat) (rest : JSString) (hpq : p ≤ q)
    (hdrop : s.drop q = c :: rest) : slice s p (q + 1) = slice s p q ++ [c] := by
  unfold slice
  have hq : q < s.length := by
    by_contra hge
    rw [List.drop_eq_nil_of_le (Nat.le_of_not_lt hge)] at hdrop
    exact List.noConfusion hdrop
  have h1 : q + 1 - p = (q - p) + 1 := by omega
  have h2 : (s.drop p).drop (q - p) = c :: rest := by
    rw [List.drop_drop]
    have : q - p + p = q := by omega
    rw [show p + (q - p) = q by omega] at *
    exact hdrop
  rw [h1, List.take_add, h2]
  rfl

theorem splitLoop_spec (s : JSString) :
    ∀ (fuel p q : Nat) (A : List JSString),
      p ≤ q → q ≤ s.length → s.length < fuel + q →
      splitLoop fuel s p q A = some (A ++ splitNonWordAux (s.drop q) (slice s p q) false) := by
  intro fuel
  induction fuel with
  | zero => intro p q A _ h2 h3; omega
  | succ fuel ih =>
    intro p q A hpq hq hfuel
    unfold splitLoop
    by_cases hlt : q < s.length
    · rw [if_pos hlt]
      obtain ⟨c, rest, hdrop⟩ : ∃ c rest, s.drop q = c :: rest := by
        cases hd : s.drop q with
        | nil =>
          have := congrArg List.length hd
          simp only [List.length_drop, List.length_nil] at this
          omega
        | cons c rest => exact ⟨c, rest, rfl⟩
      have hrest : s.drop (q + 1) = rest := by
        have := congrArg (List.drop 1) hdrop
        rw [List.drop_drop] at this
        simpa using this
      by_cases hc : isWordChar c = true
      · have hm : matchNonWordAt s q = none := by
          unfold matchNonWordAt
          rw [hdrop]
          simp [List.takeWhile_cons, hc]
        rw [hm]
        simp only []
        rw [ih p (q + 1) A (by omega) (by omega) (by omega), hrest, hdrop,
          slice_succ s p q c rest hpq hdrop]
        simp [splitNonWordAux, hc]
      · have hrun : (s.drop q).takeWhile (fun c => !isWordChar c)
            = c :: rest.takeWhile (fun c => !isWordChar c) := by
          rw [hdrop]
          simp [List.takeWhile_cons, hc]
        have hm : matchNonWordAt s q =
            some (q + ((s.drop q).takeWhile (fun c => !isWordChar c)).length) := by
          unfold matchNonWordAt
          simp only []
          rw [hrun]
          rfl
        have hlen : ((s.drop q).takeWhile (fun c => !isWordChar c)).length ≤ s.length - q := by
          have := (List.takeWhile_prefix (fun c => !isWordChar c) (l := s.drop q)).length_le
          simpa using this
        have hpos : 1 ≤ ((s.drop q).takeWhile (fun c => !isWordChar c)).length := by
          rw [hrun]
          simp
        rw [hm]
        simp only []
        rw [if_neg (by omega), ih _ _ _ (Nat.le_refl _) (by omega) (by omega)]
        have hs : slice s (q + ((s.drop q).takeWhile (fun c => !isWordChar c)).length)
            (q + ((s.drop q).takeWhile (fun c => !isWordChar c)).length) = [] := by
          simp [slice]
        have hd2 : s.drop (q + ((s.drop q).takeWhile (fun c => !isWordChar c)).length)
            = rest.dropWhile (fun c => !isWordChar c) := by
          rw [← List.drop_drop, drop_length_takeWhile, hdrop]
          simp [List.dropWhile_cons, hc]
        rw [hs, hd2, hdrop, ← splitNonWordAux_skip]
        simp [splitNonWordAux, hc]
    · rw [if_neg hlt]
      have hqe : q = s.length := by omega
      subst hqe
      simp [splitNonWordAux]

theorem splitRegExp_eq (s : JSString) (fuel : Nat) (hfuel : s.length < fuel) :
    splitRegExp fuel s = some (splitNonWord s) := by
  unfold splitRegExp
  by_cases h0 : (s.length == 0) = true
  · have hs : s = [] := List.length_eq_zero.1 (by simpa using h0)
    subst hs
    rfl
  · rw [if_neg h0, splitLoop_spec s fuel 0 0 [] (Nat.le_refl _) (Nat.zero_le _) (by omega)]
    simp [splitNonWord, slice]

theorem splitNonWordRegExp_eq (s : JSString) : splitNonWordRegExp s = splitNonWord s := by
  unfold splitNonWordRegExp
  rw [splitRegExp_eq s _ (Nat.lt_succ_self _)]
  rfl

theorem questionWords_eq (toLowerCase : JSString → JSString) (question : JSString) :
    questionWords toLowerCase question = splitNonWord (toLowerCase question) :=
  splitNonWordRegExp_eq _

theorem includes_iff_isInfix (s w : JSString) : includes s w = true ↔ w <:+: s := by
  unfold includes
  rw [List.any_eq_true]
  constructor
  · rintro ⟨k, _, hk⟩
    have hk' : (s.drop k).take w.length = w := by simpa using hk
    refine ⟨s.take k, (s.drop k).drop w.length, ?_⟩
    have h2 : w ++ (s.drop k).drop w.length = s.drop k := by
      conv_lhs => arg 1; rw [← hk']
      exact List.take_append_drop _ _
    rw [List.append_assoc, h2, List.take_append_drop]
  · rintro ⟨a, b, rfl⟩
    refine ⟨a.length, ?_, ?_⟩
    · rw [List.mem_range]
      simp only [List.length_append]
      omega
    · simp

theorem isRelevant_iff (toLowerCase : JSString → JSString) (words : List JSString) (c : Chunk) :
    isRelevant toLowerCase words c = true ↔ ∃ w ∈ words, w <:+: toLowerCase c.text := by
  unfold isRelevant
  rw [List.any_eq_true]
  constructor
  · rintro ⟨w, hw, h⟩
    exact ⟨w, hw, (includes_iff_isInfix _ _).1 h⟩
  · rintro ⟨w, hw, h⟩
    exact ⟨w, hw, (includes_iff_isInfix _ _).2 h⟩

theorem join_eq_intercalate (sep : JSString) (parts : List JSString) :
    join sep parts = sep.intercalate parts := by
  induction parts with
  | nil => rfl
  | cons x xs ih =>
    cases xs with
    | nil => simp [join, List.intercalate]
    | cons y ys =>
      rw [join, ih]
      simp [List.intercalate, List.intersperse]

theorem join_ne_nil (sep : JSString) (parts : List JSString) (hne : parts ≠ [])
    (hparts : ∀ x ∈ parts, x ≠ []) : join sep parts ≠ [] := by
  match parts, hne, hparts with
  | [x], _, hparts =>
    rw [join]
    exact hparts x (List.mem_singleton.2 rfl)
  | x :: y :: rest, _, hparts =>
    rw [join]
    intro h
    have hx : x = [] := by
      have := congrArg List.length h
      simp only [List.length_append, List.length_nil] at this
      exact List.length_eq_zero.1 (by omega)
    exact hparts x (List.mem_cons_self _ _) hx

theorem relevantChunks_nonempty_iff (toLowerCase : JSString → JSString) (question : JSString)
    (chunks : List Chunk) :
    ((relevantChunks toLowerCase question chunks).length != 0) = true ↔
      ∃ c ∈ chunks, ∃ w ∈ splitNonWord (toLowerCase question), w <:+: toLowerCase c.text := by
  unfold relevantChunks
  rw [questionWords_eq, bne_iff_ne, Ne, List.length_eq_zero, List.filter_eq_nil_iff]
  constructor
  · intro h
    by_contra hcon
    apply h
    intro c hc hrel
    exact hcon ⟨c, hc, (isRelevant_iff _ _ _).1 hrel⟩
  · rintro ⟨c, hc, hw⟩ h
    exact h c hc ((isRelevant_iff _ _ _).2 hw)

/-- C7: the tokens the handler computes with `split(/\W+/)` are the lower-cased question
split on runs of non-word characters; a chunk passes the relevance filter exactly when its
lower-cased text contains some token as a contiguous substring; the grounding text is the
texts of the relevant chunks, in list order, joined by a blank line when some chunk is
relevant, and the texts of all chunks joined the same way otherwise. -/
theorem grounding_text_spec (toLowerCase : JSString → JSString) (question : JSString)
    (chunks : List Chunk) :
    questionWords toLowerCase question = splitNonWord (toLowerCase question) ∧
    (∀ c : Chunk,
      isRelevant toLowerCase (questionWords toLowerCase question) c = true ↔
        ∃ w ∈ splitNonWord (toLowerCase question), w <:+: toLowerCase c.text) ∧
    ((∃ c ∈ chunks, ∃ w ∈ splitNonWord (toLowerCase question), w <:+: toLowerCase c.text) →
      textToSend toLowerCase question chunks =
        List.intercalate [10, 10]
          ((chunks.filter
            (fun c => isRelevant toLowerCase (questionWords toLowerCase question) c)).map
            (fun c => c.text))) ∧
    ((¬ ∃ c ∈ chunks, ∃ w ∈ splitNonWord (toLowerCase question), w <:+: toLowerCase c.text) →
      textToSend toLowerCase question chunks =
        List.intercalate [10, 10] (chunks.map (fun c => c.text))) := by
  refine ⟨questionWords_eq _ _, fun c => by rw [questionWords_eq]; exact isRelevant_iff _ _ c,
    ?_, ?_⟩
  · intro h
    unfold textToSend
    simp only []
    rw [if_pos ((relevantChunks_nonempty_iff _ _ _).2 h), join_eq_intercalate]
    rfl
  · intro h
    unfold textToSend
    simp only []
    rw [if_neg (fun hp => h ((relevantChunks_nonempty_iff _ _ _).1 hp)), join_eq_intercalate]

/-- C8: for every question and every non-empty chunk list whose chunks all carry non-empty
text, the grounding text is non-empty; and when no token of the question occurs in any
chunk, the grounding text is built from the full chunk list. -/
theorem grounding_text_nonempty (toLowerCase : JSString → JSString) (question : JSString)
    (chunks : List Chunk) (hne : chunks ≠ []) (htext : ∀ c ∈ chunks, c.text ≠ []) :
    textToSend toLowerCase question chunks ≠ [] ∧
    ((∀ c ∈ chunks, ∀ w ∈ splitNonWord (toLowerCase question), ¬ w <:+: toLowerCase c.text) →
      textToSend toLowerCase question chunks = join [10, 10] (chunks.map (fun c => c.text))) := by
  constructor
  · unfold textToSend
    simp only []
    apply join_ne_nil
    · split_ifs with h
      · intro hmap
        rw [List.map_eq_nil_iff] at hmap
        rw [hmap] at h
        simp at h
      · intro hmap
        exact hne (List.map_eq_nil_iff.1 hmap)
    · intro x hx
      split_ifs at hx with h
      · obtain ⟨c, hc, rfl⟩ := List.mem_map.1 hx
        exact htext c (List.mem_of_mem_filter hc)
      · obtain ⟨c, hc, rfl⟩ := List.mem_map.1 hx
        exact htext c hc
  · intro hnone
    unfold textToSend
    simp only []
    rw [if_neg]
    intro hp
    obtain ⟨c, hc, w, hw, hinf⟩ := (relevantChunks_nonempty_iff _ _ _).1 hp
    exact hnone c hc w hw hinf

/-- Witness for C8: one chunk with text `Hello` and the question `zebra`, no token of which
occurs in the chunk. -/
theorem grounding_text_nonempty_witness :
    textToSend asciiLower (js "zebra") [{ userId := 1, documentId := 7, chunkIndex := 0,
                                          text := js "Hello" }] ≠ [] ∧
    ((∀ c ∈ [({ userId := 1, documentId := 7, chunkIndex := 0, text := js "Hello" } : Chunk)],
        ∀ w ∈ splitNonWord (asciiLower (js "zebra")), ¬ w <:+: asciiLower c.text) →
      textToSend asciiLower (js "zebra") [{ userId := 1, documentId := 7, chunkIndex := 0,
                                            text := js "Hello" }] =
        join [10, 10]
          ([({ userId := 1, documentId := 7, chunkIndex := 0, text := js "Hello" } : Chunk)].map
            (fun c => c.text))) :=
  grounding_text_nonempty asciiLower (js "zebra")
    [{ userId := 1, documentId := 7, chunkIndex := 0, text := js "Hello" }]
    (by decide) (by decide)

/-! ## The ledger -/

theorem findOne_key (hs : List ChatHistory) (uid sid : Nat) (h : ChatHistory)
    (hfind : ChatHistory.findOne hs uid sid = some h) :
    h.userId = uid ∧ h.chatSessionId = sid := by
  have := List.find?_some hfind
  simpa using this

theorem findOne_save (hs : List ChatHistory) (h : ChatHistory) :
    ChatHistory.findOne (ChatHistory.save hs h) h.userId h.chatSessionId = some h := by
  unfold ChatHistory.findOne ChatHistory.save
  exact find?_replaceFirst _ _ _ (by simp)

theorem contains_up_down (r : JSString) :
    [js "up", js "down"].contains r = true ↔ (r = js "up" ∨ r = js "down") := by
  simp [List.contains]

theorem rateHandler_invalidRating (db : Db) (uid sid : Nat) (i : Int) (r : JSString)
    (hr : [js "up", js "down"].contains r = false) :
    rateHandler db uid sid i r = (.invalidRating, db) := by
  unfold rateHandler
  rw [hr]
  rfl

theorem rateHandler_invalidIndex (db : Db) (uid sid : Nat) (h : ChatHistory) (i : Int)
    (r : JSString) (hr : [js "up", js "down"].contains r = true)
    (hfind : ChatHistory.findOne db.histories uid sid = some h)
    (hi : i < 0 ∨ (h.messages.length : Int) ≤ i) :
    rateHandler db uid sid i r = (.invalidIndex, db) := by
  unfold rateHandler
  rw [hr, hfind]
  have hcond : (decide (i < 0) || decide (i ≥ (h.messages.length : Int))) = true := by
    rcases hi with hi | hi
    · simp [hi]
    · simp [hi]
  simp only [Bool.not_true, Bool.false_eq_true, if_false, hcond, if_true]

theorem rateHandler_ratingUpdated (db : Db) (uid sid : Nat) (h : ChatHistory) (i : Int)
    (r : JSString) (m : ChatMessage) (hr : [js "up", js "down"].contains r = true)
    (hfind : ChatHistory.findOne db.histories uid sid = some h)
    (h0 : 0 ≤ i) (hlt : i < (h.messages.length : Int))
    (hm : h.messages[i.toNat]? = some m) :
    rateHandler db uid sid i r =
      (.ratingUpdated,
        Db.mk db.users db.chunks db.sessions
          (ChatHistory.save db.histories
            (ChatHistory.mk h.userId h.chatSessionId
              (h.messages.set i.toNat (ChatMessage.mk m.question m.answer (some r) m.createdAt))))) := by
  unfold rateHandler
  rw [hr, hfind]
  have hcond : (decide (i < 0) || decide (i ≥ (h.messages.length : Int))) = false := by
    simp
    omega
  simp only [Bool.not_true, Bool.false_eq_true, if_false, hcond, hm]

/-- C9: for every existing ledger with message list `M` and every rate request with
integer index `i` and rating `r`: when `i` is negative or at least the length of `M` the
request is answered with status 400 and the database is unchanged; when `r` is neither
`'up'` nor `'down'` it is answered with `Invalid rating value` and the database is
unchanged; otherwise the ledger keeps its length, message `i` gets rating `r` with its
question, answer and timestamp kept, and every other message is kept as it was. -/
theorem rate_spec (db : Db) (uid sid : Nat) (h : ChatHistory) (i : Int) (r : JSString)
    (hfind : ChatHistory.findOne db.histories uid sid = some h) :
    ((i < 0 ∨ (h.messages.length : Int) ≤ i) →
      (rateHandler db uid sid i r).1.status = 400 ∧ (rateHandler db uid sid i r).2 = db) ∧
    ((r ≠ js "up" ∧ r ≠ js "down") →
      (rateHandler db uid sid i r).1 = .invalidRating ∧ (rateHandler db uid sid i r).2 = db) ∧
    ((0 ≤ i ∧ i < (h.messages.length : Int) ∧ (r = js "up" ∨ r = js "down")) →
      (rateHandler db uid sid i r).1 = .ratingUpdated ∧
      (ledger (rateHandler db uid sid i r).2 uid sid).length = h.messages.length ∧
      ∀ (j : Nat) (m : ChatMessage), h.messages[j]? = some m →
        (ledger (rateHandler db uid sid i r).2 uid sid)[j]? =
          some (if j = i.toNat then ChatMessage.mk m.question m.answer (some r) m.createdAt
                else m)) := by
  obtain ⟨hu, hs⟩ := findOne_key _ _ _ _ hfind
  refine ⟨?_, ?_, ?_⟩
  · intro hi
    cases hr : [js "up", js "down"].contains r with
    | false =>
      rw [rateHandler_invalidRating db uid sid i r hr]
      exact ⟨rfl, rfl⟩
    | true =>
      rw [rateHandler_invalidIndex db uid sid h i r hr hfind hi]
      exact ⟨rfl, rfl⟩
  · intro hr
    have hr' : [js "up", js "down"].contains r = false := by
      cases hc : [js "up", js "down"].contains r with
      | false => rfl
      | true => exact (((contains_up_down r).1 hc).elim hr.1 hr.2).elim
    rw [rateHandler_invalidRating db uid sid i r hr']
    exact ⟨rfl, rfl⟩
  · rintro ⟨h0, hlt, hr⟩
    have hr' : [js "up", js "down"].contains r = true := (contains_up_down r).2 hr
    have hnat : i.toNat < h.messages.length := by omega
    have hget : h.messages[i.toNat]? = some (h.messages[i.toNat]) :=
      List.getElem?_eq_getElem hnat
    have hres := rateHandler_ratingUpdated db uid sid h i r _ hr' hfind h0 hlt hget
    have hled : ledger (rateHandler db uid sid i r).2 uid sid =
        h.messages.set i.toNat
          (ChatMessage.mk (h.messages[i.toNat]).question (h.messages[i.toNat]).answer (some r)
            (h.messages[i.toNat]).createdAt) := by
      rw [hres]
      unfold ledger
      have := findOne_save db.histories
        (ChatHistory.mk h.userId h.chatSessionId
          (h.messages.set i.toNat
            (ChatMessage.mk (h.messages[i.toNat]).question (h.messages[i.toNat]).answer (some r)
              (h.messages[i.toNat]).createdAt)))
      simp only [hu, hs] at this
      simp only [hu, hs, this]
    refine ⟨by rw [hres], by rw [hled, List.length_set], ?_⟩
    intro j m hj
    rw [hled, List.getElem?_set]
    by_cases hji : i.toNat = j
    · subst hji
      rw [hget] at hj
      simp only [Option.some.injEq] at hj
      subst hj
      simp [hnat]
    · rw [if_neg hji, if_neg (fun h' => hji h'.symm)]
      exact hj

/-- Witness for C9: a ledger of user 1 for session 2 with one unrated message, rated `up`
at index 0. -/
theorem rate_spec_witness :
    (rateHandler
        { users := [], chunks := [], sessions := [],
          histories := [ChatHistory.mk 1 2 [ChatMessage.mk (js "q") (js "a") none 0]] }
        1 2 0 (js "up")).1 = .ratingUpdated ∧
    (ledger (rateHandler
        { users := [], chunks := [], sessions := [],
          histories := [ChatHistory.mk 1 2 [ChatMessage.mk (js "q") (js "a") none 0]] }
        1 2 0 (js "up")).2 1 2).length = 1 :=
  have h := (rate_spec
    { users := [], chunks := [], sessions := [],
      histories := [ChatHistory.mk 1 2 [ChatMessage.mk (js "q") (js "a") none 0]] }
    1 2 (ChatHistory.mk 1 2 [ChatMessage.mk (js "q") (js "a") none 0]) 0 (js "up") rfl).2.2
    ⟨by decide, by decide, Or.inl rfl⟩
  ⟨h.1, h.2.1⟩

theorem ledger_save_append (hs : List ChatHistory) (uid sid : Nat) (msg : ChatMessage) :
    (match ChatHistory.findOne
        (ChatHistory.save hs
          (ChatHistory.mk
            (match ChatHistory.findOne hs uid sid with
              | some found => found
              | none => ChatHistory.mk uid sid []).userId
            (match ChatHistory.findOne hs uid sid with
              | some found => found
              | none => ChatHistory.mk uid sid []).chatSessionId
            ((match ChatHistory.findOne hs uid sid with
              | some found => found
              | none => ChatHistory.mk uid sid []).messages ++ [msg])))
        uid sid with
      | some chatHistory => chatHistory.messages
      | none => []) =
    (match ChatHistory.findOne hs uid sid with
      | some chatHistory => chatHistory.messages
      | none => []) ++ [msg] := by
  cases hfind : ChatHistory.findOne hs uid sid with
  | none =>
    have := findOne_save hs (ChatHistory.mk uid sid ([] ++ [msg]))
    simp only [] at this ⊢
    rw [this]
  | some found =>
    obtain ⟨hu, hsid⟩ := findOne_key _ _ _ _ hfind
    have := findOne_save hs (ChatHistory.mk found.userId found.chatSessionId (found.messages ++ [msg]))
    simp only [hu, hsid] at this ⊢
    rw [this]

/-- C10: for every ask that is answered with status 200 and answer `a`, the ledger of the
caller for that session afterwards is the ledger before (the empty list when no history
existed) with exactly one message appended at the end, whose question is the request's
question, whose answer is `a` and whose rating is `null`; the other collections are
unchanged. -/
theorem ask_appends_exchange (toLowerCase : JSString → JSString)
    (axiosPost : List PromptMessage → AxiosResult) (db : Db) (uid sid : Nat)
    (question : JSString) (now : Nat) (a : JSString)
    (hok : (askHandler toLowerCase axiosPost db uid (some sid) question now).response =
      .answered a) :
    ledger (askHandler toLowerCase axiosPost db uid (some sid) question now).db uid sid =
      ledger db uid sid ++ [{ question := question, answer := a, rating := none,
                              createdAt := now }] ∧
    (askHandler toLowerCase axiosPost db uid (some sid) question now).db.users = db.users ∧
    (askHandler toLowerCase axiosPost db uid (some sid) question now).db.chunks = db.chunks ∧
    (askHandler toLowerCase axiosPost db uid (some sid) question now).db.sessions =
      db.sessions := by
  unfold askHandler at hok ⊢
  simp only [] at hok ⊢
  by_cases hq : question.isEmpty = true
  · rw [if_pos hq] at hok
    simp at hok
  · rw [if_neg hq] at hok ⊢
    cases hsess : ChatSession.findById db.sessions sid with
    | none => rw [hsess] at hok; simp at hok
    | some session =>
      rw [hsess] at hok
      simp only [] at hok ⊢
      by_cases hdocs : (session.documentIds.length == 0) = true
      · rw [if_pos hdocs] at hok
        simp at hok
      · rw [if_neg hdocs] at hok ⊢
        by_cases hchunks :
            ((Chunk.findSorted db.chunks uid session.documentIds).length == 0) = true
        · rw [if_pos hchunks] at hok
          simp at hok
        · rw [if_neg hchunks] at hok ⊢
          cases hpost : axiosPost (promptMessages
              (textToSend toLowerCase question
                (Chunk.findSorted db.chunks uid session.documentIds)) question) with
          | rejected => rw [hpost] at hok; simp at hok
          | resolvedNoData => rw [hpost] at hok; simp at hok
          | resolved content =>
            rw [hpost] at hok
            simp only [AskResponse.answered.injEq] at hok
            subst hok
            refine ⟨?_, rfl, rfl, rfl⟩
            unfold ledger
            exact ledger_save_append db.histories uid sid _

/-- Witness for C10: user 1 asks `hi` in session 2, bound to document 7 with one chunk, and
the completion service answers `yes`; no history existed before. -/
theorem ask_appends_exchange_witness :
    ledger (askHandler asciiLower (fun _ => .resolved (some (js "yes")))
        { users := [], chunks := [Chunk.mk 1 7 0 (js "hello")],
          sessions := [ChatSession.mk 2 1 [7] false 0], histories := [] }
        1 (some 2) (js "hi") 5).db 1 2 =
      ledger { users := [], chunks := [Chunk.mk 1 7 0 (js "hello")],
               sessions := [ChatSession.mk 2 1 [7] false 0], histories := [] } 1 2 ++
        [{ question := js "hi", answer := js "yes", rating := none, createdAt := 5 }] :=
  (ask_appends_exchange asciiLower (fun _ => .resolved (some (js "yes")))
    { users := [], chunks := [Chunk.mk 1 7 0 (js "hello")],
      sessions := [ChatSession.mk 2 1 [7] false 0], histories := [] }
    1 2 (js "hi") 5 (js "yes") (by decide)).1

/-! ## Completion failures -/

theorem askHandler_posted (toLowerCase : JSString → JSString)
    (axiosPost : List PromptMessage → AxiosResult) (db : Db) (uid : Nat)
    (chatSessionId : Option Nat) (question : JSString) (now : Nat) (msgs : List PromptMessage)
    (hposted : (askHandler toLowerCase axiosPost db uid chatSessionId question now).posted =
      some msgs) :
    ∃ sid session,
      chatSessionId = some sid ∧
      ChatSession.findById db.sessions sid = some session ∧
      Chunk.findSorted db.chunks uid session.documentIds ≠ [] ∧
      msgs = promptMessages
        (textToSend toLowerCase question (Chunk.findSorted db.chunks uid session.documentIds))
        question ∧
      (axiosPost msgs = .rejected ∨ axiosPost msgs = .resolvedNoData →
        (askHandler toLowerCase axiosPost db uid chatSessionId question now).response =
          .serverError ∧
        (askHandler toLowerCase axiosPost db uid chatSessionId question now).db = db) := by
  unfold askHandler at hposted ⊢
  cases chatSessionId with
  | none => simp at hposted
  | some sid =>
    simp only [] at hposted ⊢
    by_cases hq : question.isEmpty = true
    · rw [if_pos hq] at hposted
      simp at hposted
    · rw [if_neg hq] at hposted ⊢
      cases hsess : ChatSession.findById db.sessions sid with
      | none => rw [hsess] at hposted; simp at hposted
      | some session =>
        rw [hsess] at hposted
        simp only [] at hposted ⊢
        by_cases hdocs : (session.documentIds.length == 0) = true
        · rw [if_pos hdocs] at hposted
          simp at hposted
        · rw [if_neg hdocs] at hposted ⊢
          by_cases hchunks :
              ((Chunk.findSorted db.chunks uid session.documentIds).length == 0) = true
          · rw [if_pos hchunks] at hposted
            simp at hposted
          · rw [if_neg hchunks] at hposted ⊢
            have hne : Chunk.findSorted db.chunks uid session.documentIds ≠ [] := by
              intro h
              rw [h] at hchunks
              exact hchunks rfl
            have hmsgs : msgs = promptMessages
                (textToSend toLowerCase question
                  (Chunk.findSorted db.chunks uid session.documentIds)) question := by
              cases hpost : axiosPost (promptMessages
                  (textToSend toLowerCase question
                    (Chunk.findSorted db.chunks uid session.documentIds)) question) with
              | rejected => rw [hpost] at hposted; simpa using hposted.symm
              | resolvedNoData => rw [hpost] at hposted; simpa using hposted.symm
              | resolved content => rw [hpost] at hposted; simpa using hposted.symm
            refine ⟨sid, session, rfl, hsess, hne, hmsgs, ?_⟩
            intro hfail
            rw [hmsgs] at hfail
            rcases hfail with hfail | hfail
            · rw [hfail]
              exact ⟨rfl, rfl⟩
            · rw [hfail]
              exact ⟨rfl, rfl⟩

theorem askHandler_resolved (toLowerCase : JSString → JSString)
    (axiosPost : List PromptMessage → AxiosResult) (db : Db) (uid sid : Nat)
    (question : JSString) (now : Nat) (msgs : List PromptMessage) (content : Option JSString)
    (hposted : (askHandler toLowerCase axiosPost db uid (some sid) question now).posted =
      some msgs)
    (hres : axiosPost msgs = .resolved content) :
    (askHandler toLowerCase axiosPost db uid (some sid) question now).response =
      .answered (answerOf content) ∧
    ledger (askHandler toLowerCase axiosPost db uid (some sid) question now).db uid sid =
      ledger db uid sid ++
        [ChatMessage.mk question (answerOf content) none now] := by
  unfold askHandler at hposted ⊢
  simp only [] at hposted ⊢
  by_cases hq : question.isEmpty = true
  · rw [if_pos hq] at hposted
    simp at hposted
  · rw [if_neg hq] at hposted ⊢
    cases hsess : ChatSession.findById db.sessions sid with
    | none => rw [hsess] at hposted; simp at hposted
    | some session =>
      rw [hsess] at hposted
      simp only [] at hposted ⊢
      by_cases hdocs : (session.documentIds.length == 0) = true
      · rw [if_pos hdocs] at hposted
        simp at hposted
      · rw [if_neg hdocs] at hposted ⊢
        by_cases hchunks :
            ((Chunk.findSorted db.chunks uid session.documentIds).length == 0) = true
        · rw [if_pos hchunks] at hposted
          simp at hposted
        · rw [if_neg hchunks] at hposted ⊢
          have hmsgs : msgs = promptMessages
              (textToSend toLowerCase question
                (Chunk.findSorted db.chunks uid session.documentIds)) question := by
            cases hpost : axiosPost (promptMessages
                (textToSend toLowerCase question
                  (Chunk.findSorted db.chunks uid session.documentIds)) question) with
            | rejected => rw [hpost] at hposted; simpa using hposted.symm
            | resolvedNoData => rw [hpost] at hposted; simpa using hposted.symm
            | resolved content => rw [hpost] at hposted; simpa using hposted.symm
          rw [hmsgs] at hres
          rw [hres]
          refine ⟨rfl, ?_⟩
          unfold ledger
          exact ledger_save_append db.histories uid sid _

/-- C11, as the code has it: for every ask request that reaches the completion service,
when the call rejects (network error or a status outside 2xx) or resolves with
`response.data` being `null` or `undefined`, the request ends with status 500 and the
database, hence every ledger, is exactly what it was before the request; when the call
resolves with a payload whose answer content is missing or is the empty string, the
request ends with status 200 and the sentinel answer `No answer from AI`, and exactly
that exchange is appended to the ledger. -/
theorem completion_result_persistence (toLowerCase : JSString → JSString)
    (axiosPost : List PromptMessage → AxiosResult) (db : Db) (uid sid : Nat)
    (question : JSString) (now : Nat) (msgs : List PromptMessage)
    (hposted : (askHandler toLowerCase axiosPost db uid (some sid) question now).posted =
      some msgs) :
    ((axiosPost msgs = .rejected ∨ axiosPost msgs = .resolvedNoData) →
      (askHandler toLowerCase axiosPost db uid (some sid) question now).response =
        .serverError ∧
      (askHandler toLowerCase axiosPost db uid (some sid) question now).response.status = 500 ∧
      (askHandler toLowerCase axiosPost db uid (some sid) question now).db = db ∧
      ∀ s : Nat,
        ledger (askHandler toLowerCase axiosPost db uid (some sid) question now).db uid s =
          ledger db uid s) ∧
    ((axiosPost msgs = .resolved none ∨ axiosPost msgs = .resolved (some [])) →
      (askHandler toLowerCase axiosPost db uid (some sid) question now).response =
        .answered (js "No answer from AI") ∧
      (askHandler toLowerCase axiosPost db uid (some sid) question now).response.status = 200 ∧
      ledger (askHandler toLowerCase axiosPost db uid (some sid) question now).db uid sid =
        ledger db uid sid ++
          [ChatMessage.mk question (js "No answer from AI") none now]) := by
  constructor
  · intro hfail
    obtain ⟨_, _, _, _, _, _, h⟩ :=
      askHandler_posted toLowerCase axiosPost db uid (some sid) question now msgs hposted
    obtain ⟨h1, h2⟩ := h hfail
    exact ⟨h1, by rw [h1]; rfl, h2, fun s => by rw [h2]⟩
  · intro hres
    rcases hres with hres | hres
    · obtain ⟨h1, h2⟩ :=
        askHandler_resolved toLowerCase axiosPost db uid sid question now msgs none hposted hres
      exact ⟨h1, by rw [h1]; rfl, h2⟩
    · obtain ⟨h1, h2⟩ :=
        askHandler_resolved toLowerCase axiosPost db uid sid question now msgs (some [])
          hposted hres
      exact ⟨h1, by rw [h1]; rfl, h2⟩

/-- Witness for C11: user 1 asks `hi` in session 2; once the completion call rejects, once
it resolves with an empty answer content. -/
theorem completion_result_persistence_witness :
    ((askHandler asciiLower (fun _ => .rejected) sampleDb 1 (some 2) (js "hi") 5).response =
        .serverError ∧
      (askHandler asciiLower (fun _ => .rejected) sampleDb 1 (some 2) (js "hi") 5).db =
        sampleDb) ∧
    ((askHandler asciiLower (fun _ => .resolved (some [])) sampleDb 1 (some 2)
          (js "hi") 5).response = .answered (js "No answer from AI") ∧
      ledger (askHandler asciiLower (fun _ => .resolved (some [])) sampleDb 1 (some 2)
          (js "hi") 5).db 1 2 =
        ledger sampleDb 1 2 ++ [ChatMessage.mk (js "hi") (js "No answer from AI") none 5]) :=
  have h1 := (completion_result_persistence asciiLower (fun _ => .rejected) sampleDb 1 2
    (js "hi") 5 (promptMessages (js "hello") (js "hi")) (by decide)).1 (Or.inl rfl)
  have h2 := (completion_result_persistence asciiLower (fun _ => .resolved (some [])) sampleDb
    1 2 (js "hi") 5 (promptMessages (js "hello") (js "hi")) (by decide)).2 (Or.inr rfl)
  ⟨⟨h1.1, h1.2.2.1⟩, ⟨h2.1, h2.2.2⟩⟩

/-- Counterexample to C11 as stated: the completion service answers with status 2xx and a
payload without `choices` (a malformed payload). The request ends with status 200 and the
sentinel answer, and the exchange is appended to the ledger. -/
theorem malformed_payload_is_persisted :
    (askHandler asciiLower (fun _ => .resolved none) sampleDb 1 (some 2) (js "hi") 5).response =
      .answered (js "No answer from AI") ∧
    (askHandler asciiLower (fun _ => .resolved none) sampleDb 1 (some 2)
        (js "hi") 5).response.status = 200 ∧
    ledger (askHandler asciiLower (fun _ => .resolved none) sampleDb 1 (some 2)
        (js "hi") 5).db 1 2 =
      ledger sampleDb 1 2 ++
        [ChatMessage.mk (js "hi") (js "No answer from AI") none 5] ∧
    ledger (askHandler asciiLower (fun _ => .resolved none) sampleDb 1 (some 2)
        (js "hi") 5).db 1 2 ≠ ledger sampleDb 1 2 := by
  decide

/-! ## Archive toggle -/

theorem replaceFirst_of_find {α : Type} (p : α → Bool) (x : α) (l : List α)
    (h : l.find? p = some x) : replaceFirst p x l = l := by
  induction l with
  | nil => simp at h
  | cons y ys ih =>
    unfold replaceFirst
    by_cases hy : p y = true
    · rw [List.find?_cons_of_pos _ hy] at h
      rw [if_pos hy]
      simp only [Option.some.injEq] at h
      rw [h]
    · rw [List.find?_cons_of_neg _ hy] at h
      rw [if_neg hy, ih h]

theorem replaceFirst_replaceFirst {α : Type} (p : α → Bool) (x y : α) (l : List α)
    (hx : p x = true) : replaceFirst p y (replaceFirst p x l) = replaceFirst p y l := by
  induction l with
  | nil => simp [replaceFirst, hx]
  | cons z zs ih =>
    by_cases hz : p z = true
    · simp [replaceFirst, hz, hx]
    · simp [replaceFirst, hz, ih]

theorem sessionFindOne_key (sessions : List ChatSession) (sid uid : Nat)
    (session : ChatSession) (h : ChatSession.findOne sessions sid uid = some session) :
    session._id = sid ∧ session.userId = uid := by
  have := List.find?_some h
  simpa using this

theorem archiveHandler_found (db : Db) (uid sid : Nat) (session : ChatSession)
    (hfind : ChatSession.findOne db.sessions sid uid = some session) :
    archiveHandler db uid sid =
      (.archived (!session.archived),
        Db.mk db.users db.chunks
          (replaceFirst (fun s => s._id == sid && s.userId == uid)
            (ChatSession.mk session._id session.userId session.documentIds (!session.archived)
              session.createdAt) db.sessions)
          db.histories) := by
  obtain ⟨h1, h2⟩ := sessionFindOne_key _ _ _ _ hfind
  unfold archiveHandler
  rw [hfind]
  simp only [ChatSession.save, h1, h2]

/-- C13, as the code has it: for every session owned by the caller, the archive toggle
returns the negation of the stored flag and stores it, so applying it twice in succession
returns the original flag the second time and leaves the database exactly as it was
before the first application. -/
theorem archive_toggle_twice (db : Db) (uid sid : Nat) (session : ChatSession)
    (hfind : ChatSession.findOne db.sessions sid uid = some session) :
    (archiveHandler db uid sid).1 = .archived (!session.archived) ∧
    (ChatSession.findOne (archiveHandler db uid sid).2.sessions sid uid).map
        (fun s => s.archived) = some (!session.archived) ∧
    (archiveHandler (archiveHandler db uid sid).2 uid sid).1 = .archived session.archived ∧
    (archiveHandler (archiveHandler db uid sid).2 uid sid).2 = db := by
  obtain ⟨h1, h2⟩ := sessionFindOne_key _ _ _ _ hfind
  have hp : (fun s : ChatSession => s._id == sid && s.userId == uid)
      (ChatSession.mk session._id session.userId session.documentIds (!session.archived)
        session.createdAt) = true := by
    simp [h1, h2]
  have hfind2 : ChatSession.findOne (archiveHandler db uid sid).2.sessions sid uid =
      some (ChatSession.mk session._id session.userId session.documentIds (!session.archived)
        session.createdAt) := by
    rw [archiveHandler_found db uid sid session hfind]
    exact find?_replaceFirst _ _ _ hp
  refine ⟨by rw [archiveHandler_found db uid sid session hfind], by rw [hfind2]; rfl, ?_, ?_⟩
  · rw [archiveHandler_found _ uid sid _ hfind2]
    simp
  · rw [archiveHandler_found _ uid sid _ hfind2, archiveHandler_found db uid sid session hfind]
    simp only [Bool.not_not]
    rw [replaceFirst_replaceFirst (fun s : ChatSession => s._id == sid && s.userId == uid)
      _ _ _ hp]
    have hback : replaceFirst (fun s => s._id == sid && s.userId == uid)
        (ChatSession.mk session._id session.userId session.documentIds session.archived
          session.createdAt) db.sessions = db.sessions :=
      replaceFirst_of_find _ _ _ hfind
    rw [hback]

/-- Witness for C13: session 2 of user 1, not archived, toggled twice. -/
theorem archive_toggle_twice_witness :
    (archiveHandler sampleDb 1 2).1 = .archived true ∧
    (archiveHandler (archiveHandler sampleDb 1 2).2 1 2).1 = .archived false ∧
    (archiveHandler (archiveHandler sampleDb 1 2).2 1 2).2 = sampleDb :=
  have h := archive_toggle_twice sampleDb 1 2 (ChatSession.mk 2 1 [7] false 0) (by decide)
  ⟨h.1, h.2.2.1, h.2.2.2⟩

/-- Counterexample to C13 as stated: session 2 of user 1 is not archived; one toggle
returns `true` and stores `true`, two toggles in succession return `false` and store
`false`, which is not what one toggle leaves. -/
theorem archive_toggle_not_idempotent :
    ChatSession.findOne sampleDb.sessions 2 1 = some (ChatSession.mk 2 1 [7] false 0) ∧
    (archiveHandler sampleDb 1 2).1 = .archived true ∧
    (archiveHandler (archiveHandler sampleDb 1 2).2 1 2).1 = .archived false ∧
    (archiveHandler (archiveHandler sampleDb 1 2).2 1 2).1 ≠ (archiveHandler sampleDb 1 2).1 ∧
    (ChatSession.findOne (archiveHandler (archiveHandler sampleDb 1 2).2 1 2).2.sessions 2 1).map
        (fun s => s.archived) ≠
      (ChatSession.findOne (archiveHandler sampleDb 1 2).2.sessions 2 1).map
        (fun s => s.archived) := by
  decide

/-! ## Delete cascade -/

theorem eraseP_eq_filter {α : Type} (p : α → Bool) (l : List α)
    (hpair : l.Pairwise (fun x y => ¬ (p x = true ∧ p y = true))) :
    l.eraseP p = l.filter (fun x => !p x) := by
  induction l with
  | nil => rfl
  | cons x xs ih =>
    rw [List.pairwise_cons] at hpair
    by_cases hx : p x = true
    · rw [List.eraseP_cons_of_pos hx, List.filter_cons_of_neg (by simp [hx])]
      symm
      rw [List.filter_eq_self]
      intro y hy
      have := hpair.1 y hy
      cases hpy : p y with
      | false => rfl
      | true => exact absurd ⟨hx, hpy⟩ this
    · rw [List.eraseP_cons_of_neg hx, List.filter_cons_of_pos (by simp [hx]), ih hpair.2]

theorem pairwise_of_nodup_key {α β : Type} (f : α → β) (p : α → Bool) (k : β) (l : List α)
    (hkey : ∀ x, p x = true → f x = k) (hnodup : (l.map f).Nodup) :
    l.Pairwise (fun x y => ¬ (p x = true ∧ p y = true)) := by
  have h := List.pairwise_map.1 hnodup
  refine h.imp ?_
  intro x y hne hxy
  exact hne ((hkey x hxy.1).trans (hkey y hxy.2).symm)

theorem find?_filter_not {α : Type} (p : α → Bool) (l : List α) :
    (l.filter (fun x => !p x)).find? p = none := by
  rw [List.find?_eq_none]
  intro x hx
  have := (List.mem_filter.1 hx).2
  simpa using this

theorem find?_replaceFirst_other {α : Type} (p q : α → Bool) (x : α) (l : List α)
    (hx : q x = false) (hpq : ∀ y, p y = true → q y = false)
    (hfound : ∃ y ∈ l, p y = true) :
    (replaceFirst p x l).find? q = l.find? q := by
  induction l with
  | nil =>
    obtain ⟨y, hy, _⟩ := hfound
    simp at hy
  | cons z zs ih =>
    unfold replaceFirst
    by_cases hz : p z = true
    · rw [if_pos hz, List.find?_cons_of_neg _ (by simp [hx]),
        List.find?_cons_of_neg _ (by simp [hpq z hz])]
    · rw [if_neg hz]
      have hfound' : ∃ y ∈ zs, p y = true := by
        obtain ⟨y, hy, hpy⟩ := hfound
        rcases List.mem_cons.1 hy with rfl | hy'
        · exact absurd hpy hz
        · exact ⟨y, hy', hpy⟩
      by_cases hqz : q z = true
      · rw [List.find?_cons_of_pos _ hqz, List.find?_cons_of_pos _ hqz]
      · rw [List.find?_cons_of_neg _ hqz, List.find?_cons_of_neg _ hqz, ih hfound']

theorem any_beq_eq_contains (l : List Nat) (a : Nat) :
    l.any (fun id => id == a) = l.contains a := by
  rw [Bool.eq_iff_iff, List.any_eq_true]
  constructor
  · rintro ⟨x, hx, h⟩
    have hxa : x = a := by simpa using h
    subst hxa
    simpa using hx
  · intro h
    exact ⟨a, by simpa using h, by simp⟩

theorem deleteHandler_deleted (db : Db) (uid sid : Nat) (session : ChatSession) (user : User)
    (hfind : ChatSession.findOne db.sessions sid uid = some session)
    (huser : User.findById db.users uid = some user) :
    deleteHandler db uid sid =
      (.deleted,
        Db.mk
          (User.save db.users
            (User.mk user._id
              (user.documents.filter
                (fun doc => !(session.documentIds.any (fun id => id == doc._id))))))
          (db.chunks.filter
            (fun c => !(c.userId == uid && session.documentIds.contains c.documentId)))
          (db.sessions.eraseP (fun s => s._id == sid))
          (db.histories.eraseP (fun h => h.userId == uid && h.chatSessionId == sid))) := by
  unfold deleteHandler
  rw [hfind]
  simp only []
  rw [huser]

theorem deleteHandler_user (db : Db) (uid sid : Nat) (session : ChatSession)
    (hfind : ChatSession.findOne db.sessions sid uid = some session)
    (hok : (deleteHandler db uid sid).1 = .deleted) :
    ∃ user, User.findById db.users uid = some user := by
  cases huser : User.findById db.users uid with
  | some user => exact ⟨user, rfl⟩
  | none =>
    unfold deleteHandler at hok
    rw [hfind] at hok
    simp only [] at hok
    rw [huser] at hok
    simp at hok

/-- C12: for every session owned by the caller, in a database where session ids are unique
and there is one history per owner and session, a successful delete leaves a state in
which the session's ledger is gone, no chunk of the caller for a bound document id
remains, no bound document is in the caller's catalog, and no session with that id
remains; the caller's catalog, the chunks, the sessions and the histories are otherwise
unchanged (each is the old list without the removed entries), other users' catalogs are
unchanged, and repeating the delete returns `Chat session not found`. -/
theorem delete_cascade (db : Db) (uid sid : Nat) (session : ChatSession)
    (hfind : ChatSession.findOne db.sessions sid uid = some session)
    (hok : (deleteHandler db uid sid).1 = .deleted)
    (hsess : sessionIdsUnique db) (hhist : historiesUnique db) :
    ChatHistory.findOne (deleteHandler db uid sid).2.histories uid sid = none ∧
    (∀ c ∈ (deleteHandler db uid sid).2.chunks,
      ¬ (c.userId = uid ∧ c.documentId ∈ session.documentIds)) ∧
    (∀ d ∈ catalog (deleteHandler db uid sid).2 uid, d._id ∉ session.documentIds) ∧
    (∀ s ∈ (deleteHandler db uid sid).2.sessions, s._id ≠ sid) ∧
    catalog (deleteHandler db uid sid).2 uid =
      (catalog db uid).filter (fun d => !(session.documentIds.contains d._id)) ∧
    (∀ other : Nat, other ≠ uid →
      catalog (deleteHandler db uid sid).2 other = catalog db other) ∧
    (deleteHandler db uid sid).2.chunks =
      db.chunks.filter
        (fun c => !(c.userId == uid && session.documentIds.contains c.documentId)) ∧
    (deleteHandler db uid sid).2.sessions = db.sessions.filter (fun s => !(s._id == sid)) ∧
    (deleteHandler db uid sid).2.histories =
      db.histories.filter (fun h => !(h.userId == uid && h.chatSessionId == sid)) ∧
    (deleteHandler (deleteHandler db uid sid).2 uid sid).1 = .sessionNotFound := by
  obtain ⟨user, huser⟩ := deleteHandler_user db uid sid session hfind hok
  have huid : user._id = uid := by
    have := List.find?_some huser
    simpa using this
  rw [deleteHandler_deleted db uid sid session user hfind huser]
  simp only []
  have hS : db.sessions.eraseP (fun s => s._id == sid) =
      db.sessions.filter (fun s => !(s._id == sid)) :=
    eraseP_eq_filter _ _
      (pairwise_of_nodup_key (fun s : ChatSession => s._id) _ sid _
        (fun x hx => by simpa using hx) hsess)
  have hH : db.histories.eraseP (fun h => h.userId == uid && h.chatSessionId == sid) =
      db.histories.filter (fun h => !(h.userId == uid && h.chatSessionId == sid)) :=
    eraseP_eq_filter _ _
      (pairwise_of_nodup_key (fun h : ChatHistory => (h.userId, h.chatSessionId)) _ (uid, sid) _
        (fun x hx => by
          have : x.userId = uid ∧ x.chatSessionId = sid := by simpa using hx
          show (x.userId, x.chatSessionId) = (uid, sid)
          rw [this.1, this.2]) hhist)
  have hcat : catalog db uid = user.documents := by
    unfold catalog
    rw [huser]
  have hcat' : catalog
      (Db.mk
        (User.save db.users
          (User.mk user._id
            (user.documents.filter
              (fun doc => !(session.documentIds.any (fun id => id == doc._id))))))
        (db.chunks.filter
          (fun c => !(c.userId == uid && session.documentIds.contains c.documentId)))
        (db.sessions.eraseP (fun s => s._id == sid))
        (db.histories.eraseP (fun h => h.userId == uid && h.chatSessionId == sid))) uid =
      user.documents.filter (fun d => !(session.documentIds.contains d._id)) := by
    unfold catalog User.findById User.save
    simp only []
    rw [huid, find?_replaceFirst _ _ _ (by simp [huid])]
    simp only []
    apply List.filter_congr
    intro d _
    congr 1
    exact any_beq_eq_contains _ _
  refine ⟨?_, ?_, ?_, ?_, ?_, ?_, ?_, hS, hH, ?_⟩
  · unfold ChatHistory.findOne
    rw [hH]
    exact find?_filter_not _ _
  · intro c hc hcon
    have := (List.mem_filter.1 hc).2
    simp [hcon.1, hcon.2] at this
  · intro d hd
    rw [hcat'] at hd
    have := (List.mem_filter.1 hd).2
    simpa using this
  · intro s hs
    rw [hS] at hs
    have := (List.mem_filter.1 hs).2
    simpa using this
  · rw [hcat', hcat]
  · intro other hother
    unfold catalog User.findById User.save
    simp only []
    rw [huid, find?_replaceFirst_other (fun u : User => u._id == uid)
      (fun u : User => u._id == other) _ _ (by simp [huid]; exact fun h => hother h.symm)
      (fun y hy => by
        have : y._id = uid := by simpa using hy
        simp [this]
        exact fun h => hother h.symm)
      ⟨user, List.mem_of_find?_eq_some huser, by simp [huid]⟩]
  · trivial
  · unfold deleteHandler
    have hnone : ChatSession.findOne (db.sessions.eraseP (fun s => s._id == sid)) sid uid
        = none := by
      unfold ChatSession.findOne
      rw [hS, List.find?_eq_none]
      intro x hx
      have := (List.mem_filter.1 hx).2
      simp only [Bool.not_eq_true', beq_eq_false_iff_ne, ne_eq] at this
      simp [this]
    simp only []
    rw [hnone]

/-- Witness for C12: user 1 deletes session 2 of the sample database. -/
theorem delete_cascade_witness :
    ChatHistory.findOne (deleteHandler sampleDb 1 2).2.histories 1 2 = none ∧
    (deleteHandler sampleDb 1 2).2.sessions = [ChatSession.mk 4 3 [8] false 0] ∧
    (deleteHandler sampleDb 1 2).2.chunks = [Chunk.mk 3 8 0 (js "world")] ∧
    (deleteHandler (deleteHandler sampleDb 1 2).2 1 2).1 = .sessionNotFound :=
  have h := delete_cascade sampleDb 1 2 (ChatSession.mk 2 1 [7] false 0) (by decide) (by decide)
    (by unfold sessionIdsUnique; decide) (by unfold historiesUnique; decide)
  ⟨h.1, h.2.2.2.2.2.2.2.1.trans (by decide), h.2.2.2.2.2.2.1.trans (by decide),
    h.2.2.2.2.2.2.2.2.2⟩

/-! ## Isolation of the ask handler -/

theorem chunksFollowSessions_of_catalog (db : Db) (h1 : chunksInCatalog db)
    (h2 : sessionsInCatalog db) (h3 : documentIdsUnique db) : chunksFollowSessions db := by
  intro c hc s hs hmem
  obtain ⟨u, hu, huid, d, hd, hdid⟩ := h1 c hc
  obtain ⟨v, hv, hvid, e, he, heid⟩ := h2 s hs c.documentId hmem
  rw [← huid, ← hvid]
  exact h3 u hu v hv d hd e he (hdid.trans heid.symm)

theorem findSorted_mem (chunks : List Chunk) (uid : Nat) (ids : List Nat) (c : Chunk)
    (hc : c ∈ Chunk.findSorted chunks uid ids) :
    c ∈ chunks ∧ c.userId = uid ∧ c.documentId ∈ ids := by
  unfold Chunk.findSorted at hc
  have hc' := (List.perm_insertionSort _ _).subset hc
  obtain ⟨hmem, hp⟩ := List.mem_filter.1 hc'
  have : c.userId = uid ∧ c.documentId ∈ ids := by simpa using hp
  exact ⟨hmem, this.1, this.2⟩

theorem findSorted_other_owner (db : Db) (uid : Nat) (session : ChatSession)
    (hs : session ∈ db.sessions) (hother : session.userId ≠ uid)
    (hinv : chunksFollowSessions db) :
    Chunk.findSorted db.chunks uid session.documentIds = [] := by
  rw [List.eq_nil_iff_forall_not_mem]
  intro c hc
  obtain ⟨hmem, hu, hd⟩ := findSorted_mem _ _ _ _ hc
  exact hother ((hinv c hmem session hs hd).symm.trans hu)

/-- The grounding text of every completion request is built from chunks of the caller
only: the chunk query is scoped by the caller's id. -/
theorem ask_payload_from_callers_chunks (toLowerCase : JSString → JSString)
    (axiosPost : List PromptMessage → AxiosResult) (db : Db) (uid : Nat)
    (chatSessionId : Option Nat) (question : JSString) (now : Nat) (msgs : List PromptMessage)
    (hposted : (askHandler toLowerCase axiosPost db uid chatSessionId question now).posted =
      some msgs) :
    ∃ chunks : List Chunk,
      (∀ c ∈ chunks, c ∈ db.chunks ∧ c.userId = uid) ∧
      msgs = promptMessages (textToSend toLowerCase question chunks) question := by
  obtain ⟨_, session, _, _, _, hmsgs, _⟩ :=
    askHandler_posted toLowerCase axiosPost db uid chatSessionId question now msgs hposted
  refine ⟨Chunk.findSorted db.chunks uid session.documentIds, ?_, hmsgs⟩
  intro c hc
  have := findSorted_mem _ _ _ _ hc
  exact ⟨this.1, this.2.1⟩

/-- C14: for every ask request with a non-empty question that names a session which
exists but is owned by a different user than the caller, in a database where the chunks
of a session's documents belong to the session's owner, the request is answered with
status 404, nothing is posted to the completion service, and the database, hence every
ledger, is unchanged. -/
theorem ask_other_owner_rejected (toLowerCase : JSString → JSString)
    (axiosPost : List PromptMessage → AxiosResult) (db : Db) (uid sid : Nat)
    (question : JSString) (now : Nat) (session : ChatSession)
    (hq : question ≠ [])
    (hfind : ChatSession.findById db.sessions sid = some session)
    (hother : session.userId ≠ uid)
    (hinv : chunksFollowSessions db) :
    (askHandler toLowerCase axiosPost db uid (some sid) question now).response.status = 404 ∧
    (askHandler toLowerCase axiosPost db uid (some sid) question now).posted = none ∧
    (askHandler toLowerCase axiosPost db uid (some sid) question now).db = db ∧
    ∀ (u s : Nat),
      ledger (askHandler toLowerCase axiosPost db uid (some sid) question now).db u s =
        ledger db u s := by
  have hchunks : Chunk.findSorted db.chunks uid session.documentIds = [] :=
    findSorted_other_owner db uid session (List.mem_of_find?_eq_some hfind) hother hinv
  have hqe : ¬ question.isEmpty = true := by
    intro h
    exact hq (List.isEmpty_iff.1 h)
  have hres : (askHandler toLowerCase axiosPost db uid (some sid) question now).posted = none ∧
      (askHandler toLowerCase axiosPost db uid (some sid) question now).db = db ∧
      (askHandler toLowerCase axiosPost db uid (some sid) question now).response.status = 404 := by
    unfold askHandler
    simp only []
    rw [if_neg hqe, hfind]
    simp only []
    by_cases hdocs : (session.documentIds.length == 0) = true
    · rw [if_pos hdocs]
      exact ⟨rfl, rfl, rfl⟩
    · rw [if_neg hdocs, hchunks]
      exact ⟨rfl, rfl, rfl⟩
  exact ⟨hres.2.2, hres.1, hres.2.1, fun u s => by rw [hres.2.1]⟩

/-- Witness for C14: user 3 asks in session 2, which belongs to user 1. -/
theorem ask_other_owner_rejected_witness :
    (askHandler asciiLower (fun _ => .resolved (some (js "yes"))) sampleDb 3 (some 2)
        (js "hi") 5).response.status = 404 ∧
    (askHandler asciiLower (fun _ => .resolved (some (js "yes"))) sampleDb 3 (some 2)
        (js "hi") 5).posted = none ∧
    (askHandler asciiLower (fun _ => .resolved (some (js "yes"))) sampleDb 3 (some 2)
        (js "hi") 5).db = sampleDb :=
  have h := ask_other_owner_rejected asciiLower (fun _ => .resolved (some (js "yes"))) sampleDb
    3 2 (js "hi") 5 (ChatSession.mk 2 1 [7] false 0) (by decide) (by decide) (by decide)
    (by unfold chunksFollowSessions; decide)
  ⟨h.1, h.2.1, h.2.2.1⟩

/-! ## The empty token -/

theorem nil_mem_splitNonWordAux_end (l : JSString) (c : Nat) (hc : isWordChar c = false) :
    ∀ (cur : JSString) (inRun : Bool), (inRun = true → cur = []) →
      [] ∈ splitNonWordAux (l ++ [c]) cur inRun := by
  induction l with
  | nil =>
    intro cur inRun hinv
    cases inRun with
    | true =>
      have hcur := hinv rfl
      subst hcur
      simp [splitNonWordAux, hc]
    | false => simp [splitNonWordAux, hc]
  | cons x xs ih =>
    intro cur inRun hinv
    rw [List.cons_append]
    unfold splitNonWordAux
    by_cases hx : isWordChar x = true
    · rw [if_pos hx]
      exact ih _ false (fun h => Bool.noConfusion h)
    · rw [if_neg hx]
      cases inRun with
      | true =>
        rw [if_pos rfl]
        exact ih cur true hinv
      | false =>
        rw [if_neg (fun h => Bool.noConfusion h)]
        exact List.mem_cons_of_mem _ (ih [] true (fun _ => rfl))

theorem nil_mem_splitNonWord (s : JSString)
    (hedge : (∃ c rest, s = c :: rest ∧ isWordChar c = false) ∨
      (∃ init c, s = init ++ [c] ∧ isWordChar c = false)) :
    [] ∈ splitNonWord s := by
  unfold splitNonWord
  rcases hedge with ⟨c, rest, rfl, hc⟩ | ⟨init, c, rfl, hc⟩
  · simp [splitNonWordAux, hc]
  · exact nil_mem_splitNonWordAux_end init c hc [] false (fun h => Bool.noConfusion h)

theorem includes_nil (s : JSString) : includes s [] = true :=
  (includes_iff_isInfix s []).2 List.nil_infix

/-- C15, as the code has it: for every question whose lower-cased form begins or ends with
a non-word character (as it does for any question ending in `?`), the token list of the
handler contains the empty string, which every chunk text includes, so every chunk passes
the relevance filter and the grounding text is the texts of the full chunk list joined by
a blank line, whatever the words of the question are. -/
theorem empty_token_selects_all_chunks (toLowerCase : JSString → JSString)
    (question : JSString) (chunks : List Chunk)
    (hedge : (∃ c rest, toLowerCase question = c :: rest ∧ isWordChar c = false) ∨
      (∃ init c, toLowerCase question = init ++ [c] ∧ isWordChar c = false)) :
    [] ∈ questionWords toLowerCase question ∧
    (∀ c : Chunk, includes (toLowerCase c.text) [] = true) ∧
    (∀ c : Chunk, isRelevant toLowerCase (questionWords toLowerCase question) c = true) ∧
    relevantChunks toLowerCase question chunks = chunks ∧
    textToSend toLowerCase question chunks = join [10, 10] (chunks.map (fun c => c.text)) := by
  have hmem : [] ∈ questionWords toLowerCase question := by
    rw [questionWords_eq]
    exact nil_mem_splitNonWord _ hedge
  have hrel : ∀ c : Chunk,
      isRelevant toLowerCase (questionWords toLowerCase question) c = true := by
    intro c
    unfold isRelevant
    rw [List.any_eq_true]
    exact ⟨[], hmem, includes_nil _⟩
  have hall : relevantChunks toLowerCase question chunks = chunks := by
    unfold relevantChunks
    rw [List.filter_eq_self]
    intro c _
    exact hrel c
  refine ⟨hmem, fun c => includes_nil _, hrel, hall, ?_⟩
  unfold textToSend
  simp only []
  rw [hall]
  split_ifs <;> rfl

/-- Witness for C15: the question `what?` and two chunks, neither of which contains the
word `what`. -/
theorem empty_token_selects_all_chunks_witness :
    [] ∈ questionWords asciiLower (js "what?") ∧
    textToSend asciiLower (js "what?") [Chunk.mk 1 7 0 (js "abc"), Chunk.mk 1 7 1 (js "def")] =
      join [10, 10] ([Chunk.mk 1 7 0 (js "abc"), Chunk.mk 1 7 1 (js "def")].map (fun c => c.text)) :=
  have h := empty_token_selects_all_chunks asciiLower (js "what?")
    [Chunk.mk 1 7 0 (js "abc"), Chunk.mk 1 7 1 (js "def")]
    (Or.inr ⟨js "what", 63, by decide, by decide⟩)
  ⟨h.1, h.2.2.2.2⟩

/-- Counterexample to C15 as stated: the question is the single code unit U+212A KELVIN
SIGN, a non-word character at its beginning and at its end. Lower-casing turns it into
`k`, so the only token is `k`, the empty string is not a token, only the chunk that
contains `k` is relevant, and the grounding text is not built from the full chunk list. -/
theorem kelvin_sign_question_has_no_empty_token :
    ([8490] : JSString) ≠ [] ∧
    isWordChar 8490 = false ∧
    questionWords lowerAsciiKelvin [8490] = [js "k"] ∧
    [] ∉ questionWords lowerAsciiKelvin [8490] ∧
    isRelevant lowerAsciiKelvin (questionWords lowerAsciiKelvin [8490])
      (Chunk.mk 1 7 0 (js "abc")) = false ∧
    textToSend lowerAsciiKelvin [8490]
        [Chunk.mk 1 7 0 (js "abc"), Chunk.mk 1 7 1 (js "kilo")] = js "kilo" ∧
    textToSend lowerAsciiKelvin [8490]
        [Chunk.mk 1 7 0 (js "abc"), Chunk.mk 1 7 1 (js "kilo")] ≠
      join [10, 10]
        ([Chunk.mk 1 7 0 (js "abc"), Chunk.mk 1 7 1 (js "kilo")].map (fun c => c.text)) := by
  decide

end DocChat
